import Mathlib

/-
Verification development for the Fortiel preprocessor (src/src/fortiel.py).

The definitions below are a shallow embedding of the directive executor,
the in-line substitution engine and the line-continuation scanner of
fortiel.py.  Python dictionaries are modelled as association lists,
Python exceptions as an explicit error type, the output sink callbacks
as a small inductive of sink shapes, and recursion is made structural by
an explicit fuel parameter (recursion depth bound); running out of fuel
is a distinguished error that never occurs at the depths used here.
-/

namespace Fortiel

/-- Values of the embedded dynamic expression language.  The Python
executor stores ints, strings, bools, None, tuples, callables made by
functional let, and (for name resolution misses that hit the host
builtins) opaque builtin objects. -/
inductive Value where
  | none
  | int (n : Int)
  | str (s : String)
  | bool (b : Bool)
  | tuple (vs : List Value)
  | builtinObj (name : String)
  | pyLambda (args : List String) (bodyText : String)

/-- The fragment of Python expressions that the directives in this
development evaluate: literals, free-name lookups, tuple displays,
single-argument calls (for the generated defined("NAME") conditions),
equality tests and not.  Directive nodes carry expressions of this
type; fortiel.py carries the textual form and feeds it to eval. -/
inductive Expr where
  | lit (v : Value)
  | var (name : String)
  | tup2 (a b : Expr)
  | tup3 (a b c : Expr)
  | call1 (f a : Expr)
  | eqE (a b : Expr)
  | notE (e : Expr)

/-- The executor scope: a Python dict from names to values
(FortielExecutor._scope). -/
abbrev Scope := List (String × Value)

/-- Dictionary lookup. -/
def dictLookup (s : Scope) (k : String) : Option Value :=
  match s with
  | [] => Option.none
  | (k1, v) :: rest => if k1 == k then some v else dictLookup rest k

/-- Dictionary update: replace in place when the key is present,
append otherwise (Python dict assignment). -/
def dictInsert (s : Scope) (k : String) (v : Value) : Scope :=
  match s with
  | [] => [(k, v)]
  | (k1, v1) :: rest =>
    if k1 == k then (k1, v) :: rest else (k1, v1) :: dictInsert rest k v

/-- Dictionary deletion of a present key. -/
def dictErase (s : Scope) (k : String) : Scope :=
  match s with
  | [] => []
  | (k1, v1) :: rest =>
    if k1 == k then rest else (k1, v1) :: dictErase rest k

/-- Generic association-list lookup used for the macro table and the
modelled file system. -/
def assocLookup {α : Type} (s : List (String × α)) (k : String) : Option α :=
  match s with
  | [] => Option.none
  | (k1, v) :: rest => if k1 == k then some v else assocLookup rest k

/-- Python exceptions that can escape the core uncaught (host errors),
or be raised inside eval and then wrapped. -/
inductive PyExc where
  | nameError (name : String)
  | typeError
  | valueError
  | keyError
  | indexError
deriving DecidableEq

/-- Message text used when an eval-level exception is wrapped into a
Fortiel runtime error (FortielExecutor._evaluate_expression). -/
def PyExc.message : PyExc → String
  | .nameError n => ("name " ++ n ++ " is not defined")
  | .typeError => ("type error")
  | .valueError => ("value error")
  | .keyError => ("key error")
  | .indexError => ("index error")

/-- Errors of the modelled run: Fortiel syntax and runtime errors carry
message, file and line (classes FortielSyntaxError and
FortielRuntimeError); hostError is an uncaught Python exception
escaping the core; internalError models the bare RuntimeError used for
broken invariants; outOfFuel is the artefact of the explicit recursion
bound and unreachable at the depths used in the theorems. -/
inductive Err where
  | fortielSyntax (message filePath : String) (lineNumber : Nat)
  | fortielRuntime (message filePath : String) (lineNumber : Nat)
  | hostError (e : PyExc)
  | internalError (message : String)
  | outOfFuel

/-- The names that CPython exposes as builtins, restricted to the
standard ones; membership queries in this development only concern
names that are certainly not builtins (defined, directive index names,
uppercase user names), so the restriction is harmless. -/
def pythonBuiltinNames : List String :=
  ["abs", "all", "any", "bin", "bool", "bytes", "callable", "chr",
   "dict", "divmod", "enumerate", "filter", "float", "format",
   "frozenset", "getattr", "hasattr", "hash", "hex", "id", "int",
   "isinstance", "issubclass", "iter", "len", "list", "map", "max",
   "min", "next", "object", "oct", "ord", "pow", "print", "range",
   "repr", "reversed", "round", "set", "setattr", "slice", "sorted",
   "str", "sum", "tuple", "type", "zip"]

/-- The builtin names fortiel.py protects against let and del
(_FORTIEL_BUILTINS_NAMES). -/
def fortielBuiltinsNames : List String :=
  ["__INDEX__", "__FILE__", "__LINE__", "__DATE__", "__TIME__"]

/-- Python truthiness of a value. -/
def truthy : Value → Bool
  | .none => false
  | .int n => n != 0
  | .str s => !s.isEmpty
  | .bool b => b
  | .tuple vs => !vs.isEmpty
  | .builtinObj _ => true
  | .pyLambda _ _ => true

mutual

/-- Python equality on the modelled values (the == operator on the
value fragment); Python bools compare equal to the ints 0 and 1. -/
def pyEq : Value → Value → Bool
  | .int a, .int b => a == b
  | .int a, .bool b => a == (if b then 1 else 0)
  | .bool a, .int b => (if a then (1 : Int) else 0) == b
  | .str a, .str b => a == b
  | .bool a, .bool b => a == b
  | .none, .none => true
  | .tuple as1, .tuple bs1 => pyEqList as1 bs1
  | _, _ => false
termination_by structural x => x

/-- Elementwise equality of tuple contents. -/
def pyEqList : List Value → List Value → Bool
  | [], [] => true
  | a :: as1, b :: bs1 => pyEq a b && pyEqList as1 bs1
  | _, _ => false
termination_by structural x => x

end

/-- Application of a value to one argument.  Only the len builtin is
given a meaning; no program modelled in this development applies any
other callable, and Python raises TypeError on non-callables. -/
def applyValue : Value → Value → Except PyExc Value
  | .builtinObj bn, v =>
    if bn == "len" then
      match v with
      | .tuple vs => .ok (.int (Int.ofNat vs.length))
      | .str s => .ok (.int (Int.ofNat s.length))
      | _ => .error .typeError
    else .error .typeError
  | .pyLambda _ _, _ => .error .typeError
  | _, _ => .error .typeError

/-- Evaluation of an expression against a scope, mirroring Python eval
with the scope dict as globals: a free name resolves in the scope
first and in the builtins next, and an unresolved name raises
NameError. -/
def evalExpr (scope : Scope) : Expr → Except PyExc Value
  | .lit v => .ok v
  | .var n =>
    match dictLookup scope n with
    | some v => .ok v
    | Option.none =>
      if pythonBuiltinNames.contains n then .ok (.builtinObj n)
      else .error (.nameError n)
  | .tup2 a b => do
    let va ← evalExpr scope a
    let vb ← evalExpr scope b
    .ok (.tuple [va, vb])
  | .tup3 a b c => do
    let va ← evalExpr scope a
    let vb ← evalExpr scope b
    let vc ← evalExpr scope c
    .ok (.tuple [va, vb, vc])
  | .call1 f a => do
    let vf ← evalExpr scope f
    let va ← evalExpr scope a
    applyValue vf va
  | .eqE a b => do
    let va ← evalExpr scope a
    let vb ← evalExpr scope b
    .ok (.bool (pyEq va vb))
  | .notE e => do
    let v ← evalExpr scope e
    .ok (.bool (!truthy v))


/-- Result of one expression evaluation: the updated scope and the
value, or an error.  A flat constructor is used rather than a pair so
that evaluation results normalise well. -/
inductive EvalRes where
  | err (e : Err)
  | ok (scope : Scope) (value : Value)

/-- Result of a ranges evaluation. -/
inductive RangesRes where
  | err (e : Err)
  | ok (scope : Scope) (values : List Int)

/-- Result of a line substitution pass. -/
inductive LineRes where
  | err (e : Err)
  | ok (scope : Scope) (chars : List Char)

/-- Result of the OpenMP piecewise pass. -/
inductive PiecesRes where
  | err (e : Err)
  | ok (scope : Scope) (pieces : List (List Char))

/-- Result of the string-level line substitution. -/
inductive StrLineRes where
  | err (e : Err)
  | ok (scope : Scope) (line : String)

/-- FortielExecutor._evaluate_expression: update __FILE__ and __LINE__
in the scope, evaluate, and wrap any exception into a Fortiel runtime
error whose message cites the evaluation failure. -/
def evaluateExpression (scope : Scope) (e : Expr) (fp : String) (ln : Nat) : EvalRes :=
  let scope1 := dictInsert (dictInsert scope ("__FILE__") (.str fp)) ("__LINE__")
    (.int (Int.ofNat ln))
  match evalExpr scope1 e with
  | .ok v => .ok scope1 v
  | .error exc =>
    .err (.fortielRuntime ("Python expression evaluation error: " ++ exc.message) fp ln)

/-- Length of the Python range(start, stop, step) object. -/
def pyRangeLen (start stop step : Int) : Nat :=
  if 0 < step then ((stop - start + step - 1).toNat) / step.toNat
  else if step < 0 then ((start - stop - step - 1).toNat) / (-step).toNat
  else 0

/-- Elements of the Python range(start, stop, step) object, in order. -/
def pyRange (start stop step : Int) : List Int :=
  (List.range (pyRangeLen start stop step)).map (fun k => start + step * Int.ofNat k)

/-- FortielExecutor._evaluate_ranges_expression: evaluate, require a
tuple of two or three ints, and build range(start, stop + step, step)
with step defaulting to 1.  Python range raises ValueError on a zero
step, uncaught by the core. -/
def evaluateRangesExpression (scope : Scope) (e : Expr) (fp : String) (ln : Nat) : RangesRes :=
  match evaluateExpression scope e fp ln with
  | .err er => .err er
  | .ok sc v =>
    match v with
    | .tuple [.int a, .int b] => .ok sc (pyRange a (b + 1) 1)
    | .tuple [.int a, .int b, .int c] =>
      if c == 0 then .err (.hostError .valueError)
      else .ok sc (pyRange a (b + c) c)
    | _ =>
      .err (.fortielRuntime
        ("tuple of two or three integers inside the <do> directive ranges is expected")
        fp ln)

/-- Python word characters (the regex class used by the in-line
substitution patterns). -/
def isWordChar (c : Char) : Bool :=
  c.isAlphanum || c == '_'

/-- Python whitespace as matched by the regex class and by str.strip. -/
def isPySpace (c : Char) : Bool :=
  c == ' ' || c == '\t' || c == '\n' || c == '\r' || c == '\x0b' || c == '\x0c'

/-- Decimal digits of a natural number; the first argument is a fuel
bound that makes the recursion structural (any fuel at least the value
itself is enough). -/
def natDigitsChars (fuel n : Nat) : List Char :=
  match fuel with
  | 0 => []
  | fuel1 + 1 =>
    if n < 10 then [Char.ofNat (48 + n)]
    else natDigitsChars fuel1 (n / 10) ++ [Char.ofNat (48 + n % 10)]

/-- Decimal rendering of an integer, as Python str does. -/
def intToChars (i : Int) : List Char :=
  if i < 0 then '-' :: natDigitsChars i.natAbs i.natAbs
  else natDigitsChars i.toNat i.toNat

/-- Value of a run of decimal digit characters. -/
def digitsToInt (cs : List Char) : Int :=
  Int.ofNat (cs.foldl (fun acc c => acc * 10 + (c.toNat - 48)) 0)

/-- Python str applied to a value, restricted to the shapes the
substitution engine can produce in this development. -/
def pyStrChars : Value → List Char
  | .int n => intToChars n
  | .str s => s.data
  | .none => ("None").data
  | .bool b => if b then ("True").data else ("False").data
  | .tuple _ => ("<tuple>").data
  | .builtinObj n => ("<builtin ").data ++ n.data ++ [('>' : Char)]
  | .pyLambda _ _ => ("<lambda>").data

/-- True when the value is a negative number in Python terms; the
substitution engine wraps such values in parentheses. -/
def isNegativeNumber : Value → Bool
  | .int n => n < 0
  | _ => false

/-- Replacement of every occurrence of the two-character sequence
dollar-dollar (the iteration placeholder of the loop substitutions). -/
def replaceDollarDollar (cs : List Char) (rep : List Char) : List Char :=
  match cs with
  | [] => []
  | '$' :: '$' :: rest => rep ++ replaceDollarDollar rest rep
  | c :: rest => c :: replaceDollarDollar rest rep

/-- The join of pieces with a comma separator (str.join). -/
def joinCommaChars : List (List Char) → List Char
  | [] => []
  | [p] => p
  | p :: ps => p ++ ',' :: joinCommaChars ps

/-- Splitting on newline characters (str.splitlines for the newline
case, which is the only separator that can occur in a merged line). -/
def splitNewlines (cs : List Char) : List (List Char) :=
  match cs with
  | [] => []
  | c :: rest =>
    match splitNewlines rest with
    | [] => if c == '\n' then [[], []] else [[c]]
    | p :: ps => if c == '\n' then [] :: p :: ps else (c :: p) :: ps

/-- The join of pieces with a newline separator. -/
def joinNewlines : List (List Char) → List Char
  | [] => []
  | [p] => p
  | p :: ps => p ++ '\n' :: joinNewlines ps

/-- The ambient loop counter: FortielExecutor._loop_index reads the
key dunder-LOOP-INDEX from the scope with dict.get, which conflates a
missing key with a stored None. -/
def loopIndexValue (scope : Scope) : Value :=
  match dictLookup scope ("__LOOP_INDEX__") with
  | some v => v
  | Option.none => Value.none

/-- The modelled parse of a word token fed to eval by the short
substitutions: a run of digits is an int literal (so decimal literals
after the dollar sign are preserved), an identifier is a name lookup,
and anything else is a syntax error. -/
def parsePyWordExpr (w : List Char) : Option Expr :=
  if w.isEmpty then Option.none
  else if w.all Char.isDigit then some (.lit (.int (digitsToInt w)))
  else
    match w with
    | c :: _ => if c.isDigit then Option.none else some (.var (String.mk w))
    | [] => Option.none

/-- The modelled parse of a free-form expression text captured by the
braced substitutions; the modelled fragment is the word forms above
after stripping surrounding spaces. -/
def parsePyExprText (w : List Char) : Option Expr :=
  parsePyWordExpr ((w.dropWhile isPySpace).reverse.dropWhile isPySpace |>.reverse)

/-- Search for the lazy body of an expression substitution: the
shortest nonempty newline-free prefix followed by the two-character
closer brace-dollar; returns the body and the remainder. -/
def findInlineEvalClose (acc : List Char) : List Char → Option (List Char × List Char)
  | '}' :: '$' :: rem => some (acc.reverse, rem)
  | c :: rest => if c == '\n' then Option.none else findInlineEvalClose (c :: acc) rest
  | [] => Option.none

/-- Body search for the braced expression substitution, requiring at
least one content character. -/
def findInlineEvalBody : List Char → Option (List Char × List Char)
  | c :: rest => if c == '\n' then Option.none else findInlineEvalClose [c] rest
  | [] => Option.none

/-- Search for the closing brace-marker of a braced loop
substitution. -/
def findInlineLoopClose (acc : List Char) : List Char → Option (List Char × List Char)
  | '}' :: m :: rem =>
    if m == '^' || m == '@' then some (acc.reverse, rem)
    else findInlineLoopClose (m :: '}' :: acc) rem
  | c :: rest => if c == '\n' then Option.none else findInlineLoopClose (c :: acc) rest
  | [] => Option.none

/-- Worker for the braced loop body search. -/
def findInlineLoopBodyAux (acc : List Char) : List Char → Option (List Char × Option (List Char) × List Char)
  | [] => Option.none
  | c :: rest =>
    if c == '\n' then Option.none
    else if (c == '^' || c == '@') && rest.take 1 == [('|' : Char)] &&
        (rest.drop 1 |>.take 1 |>.any (fun m => m == '^' || m == '@')) then
      match findInlineLoopClose [] (rest.drop 2) with
      | some (rtext, rem) => some (acc.reverse, some rtext, rem)
      | Option.none => Option.none
    else if c == '}' && (rest.take 1 |>.any (fun m => m == '^' || m == '@')) then
      some (acc.reverse, Option.none, rest.drop 1)
    else findInlineLoopBodyAux (c :: acc) rest

/-- Body search for the braced loop substitution: lazy content up to a
marker-bar-marker separator or up to the closing brace-marker. -/
def findInlineLoopBody (cs : List Char) : Option (List Char × Option (List Char) × List Char) :=
  findInlineLoopBodyAux [] cs

/-- Helper for the integer components of a literal ranges tuple. -/
def rangesIntLiteral (cs0 : List Char) : Option (Int × List Char) :=
  let cs1 := cs0.dropWhile isPySpace
  let neg := cs1.take 1 == [('-' : Char)]
  let cs2 := if neg then cs1.drop 1 else cs1
  let ds := cs2.takeWhile Char.isDigit
  if ds.isEmpty then Option.none
  else
    let v := digitsToInt ds
    some (if neg then -v else v, (cs2.drop ds.length).dropWhile isPySpace)

/-- The literal integer tuple fragment of ranges texts accepted by the
modelled braced loop substitution. -/
def parseRangesLiteral (cs : List Char) : Option Expr :=
  let t := (cs.dropWhile isPySpace).reverse.dropWhile isPySpace |>.reverse
  match t with
  | '(' :: rest =>
    match rangesIntLiteral rest with
    | some (a, ',' :: rest1) =>
      match rangesIntLiteral rest1 with
      | some (b, [')']) => some (.lit (.tuple [.int a, .int b]))
      | some (b, ',' :: rest2) =>
        match rangesIntLiteral rest2 with
        | some (c, [')']) => some (.lit (.tuple [.int a, .int b, .int c]))
        | _ => Option.none
      | _ => Option.none
    | _ => Option.none
  | _ => Option.none

/-- The word core of a short loop match: a marker followed by a colon
or a nonempty word; returns the expression text and the remainder. -/
def shortLoopCore (chars : List Char) : Option (List Char × List Char) :=
  match chars with
  | m :: rest =>
    if m == '^' || m == '@' then
      match rest with
      | ':' :: rem => some ([':'], rem)
      | _ =>
        let word := rest.takeWhile isWordChar
        if word.isEmpty then Option.none
        else some (word, rest.drop word.length)
    else Option.none
  | [] => Option.none

/-- Extraction of the optional trailing comma group of a loop match:
returns the matched comma text and the remainder. -/
def loopCommaAfter (rem0 : List Char) : Option (List Char) × List Char :=
  let wsA := rem0.takeWhile isPySpace
  let restA := rem0.drop wsA.length
  if restA.take 1 == [(',' : Char)] then (some (wsA ++ [',']), restA.drop 1)
  else (Option.none, rem0)

mutual

/-- FortielExecutor._evaluate_line over the characters of one line:
the braced loop pass, the short loop pass, the braced expression pass,
and then either the OpenMP-prefix-aware or the plain short expression
pass.  The first argument is the recursion-depth fuel. -/
def evaluateLineChars : Nat → Scope → List Char → String → Nat → LineRes
  | 0, _, _, _, _ => .err .outOfFuel
  | n + 1, scope, chars, fp, ln =>
    match subInlineLoop n scope chars fp ln with
    | .err e => .err e
    | .ok sc1 l1 =>
      match subShortLoop n sc1 l1 fp ln with
      | .err e => .err e
      | .ok sc2 l2 =>
        match subInlineEval n sc2 l2 fp ln with
        | .err e => .err e
        | .ok sc3 l3 =>
          if (l3.dropWhile isPySpace).take 2 == ['!', '$'] then
            match ompPieces n sc3 (splitNewlines l3) fp ln with
            | .err e => .err e
            | .ok sc4 ps => .ok sc4 (joinNewlines ps)
          else subShortEval n sc3 l3 fp ln
termination_by structural x => x

/-- The braced loop substitution pass (regex _FORTIEL_INLINE_LOOP):
an optional comma prefix, a marker-brace opener, lazy contents with an
optional ranges part, a brace-marker closer and an optional comma
suffix; every replacement is evaluated recursively. -/
def subInlineLoop : Nat → Scope → List Char → String → Nat → LineRes
  | 0, _, _, _, _ => .err .outOfFuel
  | n + 1, scope, chars, fp, ln =>
    match chars with
    | [] => .ok scope []
    | c :: cs =>
      if c == ',' then
        let ws := cs.takeWhile isPySpace
        match cs.drop ws.length with
        | m :: '{' :: body =>
          if m == '^' || m == '@' then
            match findInlineLoopBody body with
            | some (etext, rtext, rem0) =>
              match loopCommaAfter rem0 with
              | (commaAfter, rem) =>
                match loopReplacement n scope (rtext.map parseRangesLiteral) etext
                    (some (c :: ws)) commaAfter fp ln with
                | .err e => .err e
                | .ok sc1 rep =>
                  match subInlineLoop n sc1 rem fp ln with
                  | .err e => .err e
                  | .ok sc2 out => .ok sc2 (rep ++ out)
            | Option.none =>
              match subInlineLoop n scope cs fp ln with
              | .err e => .err e
              | .ok sc1 out => .ok sc1 (c :: out)
          else
            match subInlineLoop n scope cs fp ln with
            | .err e => .err e
            | .ok sc1 out => .ok sc1 (c :: out)
        | _ =>
          match subInlineLoop n scope cs fp ln with
          | .err e => .err e
          | .ok sc1 out => .ok sc1 (c :: out)
      else if c == '^' || c == '@' then
        match cs with
        | '{' :: body =>
          match findInlineLoopBody body with
          | some (etext, rtext, rem0) =>
            match loopCommaAfter rem0 with
            | (commaAfter, rem) =>
              match loopReplacement n scope (rtext.map parseRangesLiteral) etext
                  Option.none commaAfter fp ln with
              | .err e => .err e
              | .ok sc1 rep =>
                match subInlineLoop n sc1 rem fp ln with
                | .err e => .err e
                | .ok sc2 out => .ok sc2 (rep ++ out)
          | Option.none =>
            match subInlineLoop n scope cs fp ln with
            | .err e => .err e
            | .ok sc1 out => .ok sc1 (c :: out)
        | _ =>
          match subInlineLoop n scope cs fp ln with
          | .err e => .err e
          | .ok sc1 out => .ok sc1 (c :: out)
      else
        match subInlineLoop n scope cs fp ln with
        | .err e => .err e
        | .ok sc1 out => .ok sc1 (c :: out)
termination_by structural x => x

/-- The short loop substitution pass (regex _FORTIEL_INLINE_SHORT_LOOP):
an optional comma prefix, a marker, a colon or a word, and an optional
comma suffix. -/
def subShortLoop : Nat → Scope → List Char → String → Nat → LineRes
  | 0, _, _, _, _ => .err .outOfFuel
  | n + 1, scope, chars, fp, ln =>
    match chars with
    | [] => .ok scope []
    | c :: cs =>
      if c == ',' then
        let ws := cs.takeWhile isPySpace
        match shortLoopCore (cs.drop ws.length) with
        | some (etext, rem0) =>
          match loopCommaAfter rem0 with
          | (commaAfter, rem) =>
            match loopReplacement n scope Option.none etext (some (c :: ws)) commaAfter fp ln with
            | .err e => .err e
            | .ok sc1 rep =>
              match subShortLoop n sc1 rem fp ln with
              | .err e => .err e
              | .ok sc2 out => .ok sc2 (rep ++ out)
        | Option.none =>
          match subShortLoop n scope cs fp ln with
          | .err e => .err e
          | .ok sc1 out => .ok sc1 (c :: out)
      else
        match shortLoopCore chars with
        | some (etext, rem0) =>
          match loopCommaAfter rem0 with
          | (commaAfter, rem) =>
            match loopReplacement n scope Option.none etext Option.none commaAfter fp ln with
            | .err e => .err e
            | .ok sc1 rep =>
              match subShortLoop n sc1 rem fp ln with
              | .err e => .err e
              | .ok sc2 out => .ok sc2 (rep ++ out)
        | Option.none =>
          match subShortLoop n scope cs fp ln with
          | .err e => .err e
          | .ok sc1 out => .ok sc1 (c :: out)
termination_by structural x => x

/-- The braced expression substitution pass (regex
_FORTIEL_INLINE_EVAL). -/
def subInlineEval : Nat → Scope → List Char → String → Nat → LineRes
  | 0, _, _, _, _ => .err .outOfFuel
  | n + 1, scope, chars, fp, ln =>
    match chars with
    | [] => .ok scope []
    | c :: cs =>
      if c == '$' then
        match cs with
        | '{' :: body =>
          match findInlineEvalBody body with
          | some (etext, rem) =>
            match evalReplacement n scope (parsePyExprText etext) fp ln with
            | .err e => .err e
            | .ok sc1 rep =>
              match subInlineEval n sc1 rem fp ln with
              | .err e => .err e
              | .ok sc2 out => .ok sc2 (rep ++ out)
          | Option.none =>
            match subInlineEval n scope cs fp ln with
            | .err e => .err e
            | .ok sc1 out => .ok sc1 (c :: out)
        | _ =>
          match subInlineEval n scope cs fp ln with
          | .err e => .err e
          | .ok sc1 out => .ok sc1 (c :: out)
      else
        match subInlineEval n scope cs fp ln with
        | .err e => .err e
        | .ok sc1 out => .ok sc1 (c :: out)
termination_by structural x => x

/-- The short expression substitution pass (regex
_FORTIEL_INLINE_SHORT_EVAL): a dollar or at marker, optional spaces
and a word. -/
def subShortEval : Nat → Scope → List Char → String → Nat → LineRes
  | 0, _, _, _, _ => .err .outOfFuel
  | n + 1, scope, chars, fp, ln =>
    match chars with
    | [] => .ok scope []
    | c :: cs =>
      if c == '$' || c == '@' then
        let afterWs := cs.dropWhile isPySpace
        let word := afterWs.takeWhile isWordChar
        if word.isEmpty then
          match subShortEval n scope cs fp ln with
          | .err e => .err e
          | .ok sc1 out => .ok sc1 (c :: out)
        else
          match evalReplacement n scope (parsePyWordExpr word) fp ln with
          | .err e => .err e
          | .ok sc1 rep =>
            match subShortEval n sc1 (afterWs.drop word.length) fp ln with
            | .err e => .err e
            | .ok sc2 out => .ok sc2 (rep ++ out)
      else
        match subShortEval n scope cs fp ln with
        | .err e => .err e
        | .ok sc1 out => .ok sc1 (c :: out)
termination_by structural x => x

/-- The shared replacement of both loop substitution passes
(_evaluate_inline_loop_expression_sub): resolve the ranges from the
explicit ranges text or from the ambient loop counter, repeat the
expression joined by commas with the iteration placeholder filled in,
handle the optional flanking commas, and recursively evaluate. -/
def loopReplacement : Nat → Scope → Option (Option Expr) → List Char → Option (List Char) →
    Option (List Char) → String → Nat → LineRes
  | 0, _, _, _, _, _, _, _ => .err .outOfFuel
  | n + 1, scope, rangesE, etext, commaBefore, commaAfter, fp, ln =>
    let rr : RangesRes :=
      match rangesE with
      | some (some e) => evaluateRangesExpression scope e fp ln
      | some Option.none =>
        .err (.fortielRuntime ("Python expression evaluation error: invalid syntax") fp ln)
      | Option.none =>
        match loopIndexValue scope with
        | .none =>
          .err (.fortielRuntime
            ("rangeless substitution outside of the <do> loop body") fp ln)
        | .int i => .ok scope (pyRange 1 (max 0 i + 1) 1)
        | _ => .err (.hostError .typeError)
    match rr with
    | .err e => .err e
    | .ok sc1 values =>
      let sub0 := joinCommaChars (values.map (fun i => replaceDollarDollar etext (intToChars i)))
      let sub :=
        if sub0.length > 0 then
          (commaBefore.getD []) ++ sub0 ++ (commaAfter.getD [])
        else if commaBefore.isSome && commaAfter.isSome then [(',' : Char)] else []
      evaluateLineChars n sc1 sub fp ln
termination_by structural x => x

/-- The shared replacement of both expression substitution passes
(_evaluate_inline_eval_expression_sub): evaluate, parenthesise
negative numbers, stringify and recursively evaluate.  A text outside
the modelled expression fragment is a wrapped evaluation error, as any
Python-level failure would be. -/
def evalReplacement : Nat → Scope → Option Expr → String → Nat → LineRes
  | 0, _, _, _, _ => .err .outOfFuel
  | n + 1, scope, eOpt, fp, ln =>
    match eOpt with
    | Option.none =>
      .err (.fortielRuntime ("Python expression evaluation error: invalid syntax") fp ln)
    | some e =>
      match evaluateExpression scope e fp ln with
      | .err er => .err er
      | .ok sc1 v =>
        let s0 := pyStrChars v
        let sub := if isNegativeNumber v then '(' :: s0 ++ [(')' : Char)] else s0
        evaluateLineChars n sc1 sub fp ln
termination_by structural x => x

/-- The per-piece short expression pass of the OpenMP and OpenACC
branch: the leading whitespace and the bang-dollar prefix of each
piece are kept, the rest is substituted. -/
def ompPieces : Nat → Scope → List (List Char) → String → Nat → PiecesRes
  | 0, _, _, _, _ => .err .outOfFuel
  | n + 1, scope, pieces, fp, ln =>
    match pieces with
    | [] => .ok scope []
    | p :: ps =>
      let stripped := p.dropWhile isPySpace
      let core := if stripped.take 2 == ['!', '$'] then stripped.drop 2 else stripped
      let cut := p.length - core.length
      match subShortEval n scope core fp ln with
      | .err e => .err e
      | .ok sc1 out1 =>
        match ompPieces n sc1 ps fp ln with
        | .err e => .err e
        | .ok sc2 out2 => .ok sc2 ((p.take cut ++ out1) :: out2)
termination_by structural x => x

end

/-- String-level wrapper of the in-line substitution engine. -/
def evaluateLine (n : Nat) (scope : Scope) (line : String) (fp : String) (ln : Nat) : StrLineRes :=
  match evaluateLineChars n scope line.data fp ln with
  | .err e => .err e
  | .ok sc out => .ok sc (String.mk out)

/-- Modelled compiled regexes of macro patterns.  matchAny models a
pattern whose regex matches every argument with no capture groups
(such as the empty pattern), capAll models a single group capturing
the whole argument, and matchNever a regex that fails on every
argument of interest. -/
inductive Rgx where
  | matchAny
  | capAll (groupName : String)
  | matchNever

/-- Pattern matching of a modelled regex against a call argument,
returning the dict of named captures on success. -/
def rgxMatch : Rgx → String → Option (List (String × Value))
  | .matchAny, _ => some []
  | .capAll g, s => some [(g, .str s)]
  | .matchNever, _ => Option.none

mutual

/-- Fortiel syntax tree nodes, one constructor per dataclass of
fortiel.py; names inside nodes are already normalised the way the
parser stores them (lower case, whitespace collapsed). -/
inductive FortielNode where
  | lineList (filePath : String) (lineNumber : Nat) (lines : List String)
  | useNode (filePath : String) (lineNumber : Nat) (importedFilePath : String)
  | letNode (filePath : String) (lineNumber : Nat) (name : String)
      (argumentsF : Option (List String)) (valueExpression : Expr)
  | delNode (filePath : String) (lineNumber : Nat) (names : List String)
  | ifNode (filePath : String) (lineNumber : Nat) (conditionExpression : Expr)
      (thenNodes : List FortielNode) (elifNodes : List FortielElif)
      (elseNodes : List FortielNode)
  | doNode (filePath : String) (lineNumber : Nat) (indexName : String)
      (rangesExpression : Expr) (loopNodes : List FortielNode)
  | forNode (filePath : String) (lineNumber : Nat) (indexNames : List String)
      (iterableExpression : Expr) (loopNodes : List FortielNode)
  | macroDirective (filePath : String) (lineNumber : Nat) (m : FortielMacroData)
  | callSegment (filePath : String) (lineNumber : Nat)
      (spacesBefore name argument : String)
  | resolvedCall (filePath : String) (lineNumber : Nat) (c : FortielCallData)

/-- One ELSE IF branch of an if node. -/
inductive FortielElif where
  | mk (conditionExpression : Expr) (thenNodes : List FortielNode)

/-- One compiled pattern of a macro or a section with its body. -/
inductive FortielPatternData where
  | mk (filePath : String) (lineNumber : Nat) (rgx : Rgx) (matchNodes : List FortielNode)

/-- One named macro section with its once attribute and patterns. -/
inductive FortielSectionData where
  | mk (filePath : String) (lineNumber : Nat) (name : String) (once : Bool)
      (patternNodes : List FortielPatternData)

/-- A macro definition as stored in the macro table. -/
inductive FortielMacroData where
  | mk (name : String) (patternNodes : List FortielPatternData)
      (sectionNodes : List FortielSectionData) (finallyNodes : List FortielNode)

/-- A resolved macro call (class FortielCallNode). -/
inductive FortielCallData where
  | mk (spacesBefore name argument : String) (capturedNodes : List FortielNode)
      (callSectionNodes : List FortielCallSectionData)

/-- A resolved call section (class FortielCallSectionNode). -/
inductive FortielCallSectionData where
  | mk (filePath : String) (lineNumber : Nat) (name argument : String)
      (capturedNodes : List FortielNode)

end

/-- Accessor: macro name. -/
def FortielMacroData.name : FortielMacroData → String
  | .mk n _ _ _ => n

/-- Accessor: macro patterns. -/
def FortielMacroData.patternNodes : FortielMacroData → List FortielPatternData
  | .mk _ p _ _ => p

/-- Accessor: macro sections. -/
def FortielMacroData.sectionNodes : FortielMacroData → List FortielSectionData
  | .mk _ _ s _ => s

/-- Accessor: macro finally body. -/
def FortielMacroData.finallyNodes : FortielMacroData → List FortielNode
  | .mk _ _ _ f => f

/-- FortielMacroNode.is_construct. -/
def macroIsConstruct (m : FortielMacroData) : Bool :=
  !m.sectionNodes.isEmpty || !m.finallyNodes.isEmpty

/-- Accessor: section name. -/
def FortielSectionData.name : FortielSectionData → String
  | .mk _ _ n _ _ => n

/-- Accessor: section once attribute. -/
def FortielSectionData.once : FortielSectionData → Bool
  | .mk _ _ _ o _ => o

/-- Accessor: section patterns. -/
def FortielSectionData.patternNodes : FortielSectionData → List FortielPatternData
  | .mk _ _ _ _ p => p

/-- FortielMacroNode.section_names. -/
def macroSectionNames (m : FortielMacroData) : List String :=
  m.sectionNodes.map FortielSectionData.name

/-- Accessor: pattern regex. -/
def FortielPatternData.rgx : FortielPatternData → Rgx
  | .mk _ _ r _ => r

/-- Accessor: pattern body. -/
def FortielPatternData.matchNodes : FortielPatternData → List FortielNode
  | .mk _ _ _ b => b

/-- Accessor: call spaces. -/
def FortielCallData.spacesBefore : FortielCallData → String
  | .mk sp _ _ _ _ => sp

/-- Accessor: call name. -/
def FortielCallData.name : FortielCallData → String
  | .mk _ n _ _ _ => n

/-- Accessor: call argument. -/
def FortielCallData.argument : FortielCallData → String
  | .mk _ _ a _ _ => a

/-- Accessor: call captured nodes. -/
def FortielCallData.capturedNodes : FortielCallData → List FortielNode
  | .mk _ _ _ c _ => c

/-- Accessor: call sections. -/
def FortielCallData.callSectionNodes : FortielCallData → List FortielCallSectionData
  | .mk _ _ _ _ s => s

/-- Accessor: call section file. -/
def FortielCallSectionData.filePath : FortielCallSectionData → String
  | .mk fp _ _ _ _ => fp

/-- Accessor: call section line. -/
def FortielCallSectionData.lineNumber : FortielCallSectionData → Nat
  | .mk _ ln _ _ _ => ln

/-- Accessor: call section name. -/
def FortielCallSectionData.name : FortielCallSectionData → String
  | .mk _ _ n _ _ => n

/-- Accessor: call section argument. -/
def FortielCallSectionData.argument : FortielCallSectionData → String
  | .mk _ _ _ a _ => a

/-- Accessor: call section captured nodes. -/
def FortielCallSectionData.capturedNodes : FortielCallSectionData → List FortielNode
  | .mk _ _ _ _ c => c

/-- A parsed source tree (class FortielTree). -/
structure FortielTree where
  filePath : String
  rootNodes : List FortielNode

/-- The macro table of the executor. -/
abbrev Macros := List (String × FortielMacroData)

/-- The line marker format option. -/
inductive MarkerFormat where
  | fpp
  | cpp
  | noMarkers

/-- The preprocessor options relevant to the executor. -/
structure FortielOptionsModel where
  lineMarkerFormat : MarkerFormat

/-- The execution environment: the options, the result of
_find_file keyed by the origin file and the imported path text
(folding in the configured include directories and the ambient file
system), and the parsed content of each resolvable file keyed by its
resolved absolute path (modelling open, read, splitlines and
FortielParser.parse, which are deterministic per run). -/
structure Env where
  options : FortielOptionsModel
  resolvedPaths : List ((String × String) × String)
  files : List (String × FortielTree)

/-- Resolution lookup keyed by origin file and imported path text. -/
def pairLookup (l : List ((String × String) × String)) (a b : String) : Option String :=
  match l with
  | [] => Option.none
  | ((a1, b1), v) :: rest => if a1 == a && b1 == b then some v else pairLookup rest a b

/-- Output sinks: collect is the identity print function at the top,
null is the dummy print function used for imports, and spaced is the
closure _spaced_print_func wrapping a parent sink with the indentation
of a call. -/
inductive Sink where
  | collect
  | null
  | spaced (spaces : String) (parent : Sink)

/-- True when the line, stripped of leading whitespace, starts with a
hash character; _spaced_print_func leaves such lines unindented. -/
def startsWithHashAfterStrip (l : String) : Bool :=
  (l.data.dropWhile isPySpace).take 1 == [('#' : Char)]

/-- The transformation applied by _spaced_print_func to one line. -/
def spacedTransform (spaces l : String) : String :=
  if startsWithHashAfterStrip l then l else spaces ++ l

/-- The lines a sink forwards to the collected output for one printed
line. -/
def Sink.emit : Sink → String → List String
  | .collect, l => [l]
  | .null, _ => []
  | .spaced s p, l => p.emit (spacedTransform s l)

/-- Decimal rendering of a natural number. -/
def natToStr (n : Nat) : String :=
  String.mk (natDigitsChars n n)

/-- The quoted form used inside line markers. -/
def quoteStr (s : String) : String :=
  "\"" ++ s ++ "\""

/-- The primary line marker printed by execute_tree. -/
def primaryMarkerLines (fmt : MarkerFormat) (fp : String) : List String :=
  match fmt with
  | .fpp => ["# 1 " ++ quoteStr fp ++ " 1"]
  | .cpp => ["#line 1 " ++ quoteStr fp ++ " 1"]
  | .noMarkers => []

/-- The line marker printed before each line list block. -/
def lineListMarkerLines (fmt : MarkerFormat) (fp : String) (ln : Nat) : List String :=
  match fmt with
  | .fpp => ["# " ++ natToStr ln ++ " " ++ quoteStr fp]
  | .cpp => ["#line " ++ natToStr ln ++ " " ++ quoteStr fp]
  | .noMarkers => []

/-- Result of an executor step: the three state components of the
executor and the lines written to the collected output, or an error. -/
inductive ExecRes where
  | err (e : Err)
  | ok (scope : Scope) (macros : Macros) (imported : List String) (output : List String)

/-- Result of a state-only executor step over the scope. -/
inductive ScopeRes where
  | err (e : Err)
  | ok (scope : Scope)

/-- Result of a state-only executor step over the macro table. -/
inductive MacrosRes where
  | err (e : Err)
  | ok (macros : Macros)

/-- Result of a call segment resolution: the resolved call and the
remaining siblings. -/
inductive ResolveRes where
  | err (e : Err)
  | ok (c : FortielCallData) (rest : List FortielNode)

/-- Result of a line list execution: the scope and the output. -/
inductive OutRes where
  | err (e : Err)
  | ok (scope : Scope) (output : List String)

/-- Python iteration over a value: tuples yield their elements,
strings their characters, anything else raises TypeError. -/
def pyIterate : Value → Except Err (List Value)
  | .tuple vs => .ok vs
  | .str s => .ok (s.data.map (fun c => .str (String.mk [c])))
  | _ => .error (.hostError .typeError)

/-- Python del of a dict key: KeyError when the key is missing. -/
def pyDel (scope : Scope) (k : String) : ScopeRes :=
  match dictLookup scope k with
  | some _ => .ok (dictErase scope k)
  | Option.none => .err (.hostError .keyError)

/-- Deletion of each name in order, as the epilogue of the for
executor does. -/
def pyDelAll (scope : Scope) : List String → ScopeRes
  | [] => .ok scope
  | k :: ks =>
    match pyDel scope k with
    | .err e => .err e
    | .ok s1 => pyDelAll s1 ks

/-- Worker for findDuplicate with the set of seen strings. -/
def findDuplicateAux (seen : List String) : List String → Option String
  | [] => Option.none
  | x :: xs => if seen.contains x then some x else findDuplicateAux (x :: seen) xs

/-- The first duplicate of a string list (_find_duplicate). -/
def findDuplicate (xs : List String) : Option String :=
  findDuplicateAux [] xs

/-- Insertion into the macro table (Python dict assignment). -/
def assocInsert {α : Type} (l : List (String × α)) (k : String) (v : α) : List (String × α) :=
  match l with
  | [] => [(k, v)]
  | (k1, v1) :: rest =>
    if k1 == k then (k1, v) :: rest else (k1, v1) :: assocInsert rest k v

/-- FortielExecutor._execute_let_node: reject builtin names, then
either evaluate the value or build the lambda for the functional form;
no already-bound check is performed by the code. -/
def executeLetNode (scope : Scope) (fp : String) (ln : Nat) (name : String)
    (argumentsF : Option (List String)) (valueE : Expr) : ScopeRes :=
  if fortielBuiltinsNames.contains name then
    .err (.fortielRuntime ("builtin name <" ++ name ++ "> can not be redefined") fp ln)
  else
    match argumentsF with
    | Option.none =>
      match evaluateExpression scope valueE fp ln with
      | .err e => .err e
      | .ok sc v => .ok (dictInsert sc name v)
    | some args =>
      let scope1 := dictInsert (dictInsert scope ("__FILE__") (.str fp))
        ("__LINE__") (.int (Int.ofNat ln))
      .ok (dictInsert scope1 name (.pyLambda args ("<functional let body>")))

/-- FortielExecutor._execute_del_node: each name must be bound and not
builtin, then it is unbound. -/
def executeDelNode (scope : Scope) (fp : String) (ln : Nat) :
    List String → ScopeRes
  | [] => .ok scope
  | name :: rest =>
    if (dictLookup scope name).isNone then
      .err (.fortielRuntime ("name " ++ name ++ " was not previously defined") fp ln)
    else if fortielBuiltinsNames.contains name then
      .err (.fortielRuntime ("builtin name <" ++ name ++ "> can not be undefined") fp ln)
    else executeDelNode (dictErase scope name) fp ln rest

/-- FortielExecutor._execute_macro_node: reject a redefinition, a
section named like the macro and duplicate section names, then insert
into the macro table. -/
def executeMacroDirective (macros : Macros) (fp : String) (ln : Nat)
    (m : FortielMacroData) : MacrosRes :=
  if (assocLookup macros m.name).isSome then
    .err (.fortielRuntime ("macro " ++ m.name ++ " is already defined") fp ln)
  else if !m.sectionNodes.isEmpty && (macroSectionNames m).contains m.name then
    .err (.fortielRuntime
      ("section name cannot be the same with macro " ++ m.name ++ " name") fp ln)
  else if !m.sectionNodes.isEmpty && (findDuplicate (macroSectionNames m)).isSome then
    .err (.fortielRuntime
      ("duplicate section of the macro construct " ++ m.name) fp ln)
  else .ok (assocInsert macros m.name m)

/-- One pass over the lines of a line list: substitute each line, the
line number advancing from the line number of the block
(_execute_line_list_node). -/
def executeLines : Nat → Scope → List String → String → Nat → Sink → OutRes
  | 0, _, _, _, _, _ => .err .outOfFuel
  | n + 1, scope, lines, fp, num, sink =>
    match lines with
    | [] => .ok scope []
    | l :: rest =>
      match evaluateLine n scope l fp num with
      | .err e => .err e
      | .ok sc1 out1 =>
        match executeLines n sc1 rest fp (num + 1) sink with
        | .err e => .err e
        | .ok sc2 out2 => .ok sc2 (sink.emit out1 ++ out2)
termination_by structural x => x

/-- Zip assignment of destructured for names. -/
def assignZip (scope : Scope) : List String → List Value → Scope
  | n :: ns, v :: vs => assignZip (dictInsert scope n v) ns vs
  | _, _ => scope

/-- Append of a node to the captured area of the last call section. -/
def appendToLastSection : List FortielCallSectionData → FortielNode → List FortielCallSectionData
  | [], _ => []
  | [FortielCallSectionData.mk fp ln nm arg cap], nd =>
    [FortielCallSectionData.mk fp ln nm arg (cap ++ [nd])]
  | s :: ss, nd => s :: appendToLastSection ss nd

/-- Functional append of a resolved node into the captured area of a
call: into the call itself while no section is open, into the most
recent call section afterwards. -/
def callDataAppendNode (c : FortielCallData) (nd : FortielNode) : FortielCallData :=
  match c with
  | .mk sp nm arg cap secs =>
    match secs with
    | [] => .mk sp nm arg (cap ++ [nd]) []
    | s :: ss => .mk sp nm arg cap (appendToLastSection (s :: ss) nd)

/-- Opening of a new call section on a call. -/
def callDataAddSection (c : FortielCallData) (s : FortielCallSectionData) : FortielCallData :=
  match c with
  | .mk sp nm arg cap secs => .mk sp nm arg cap (secs ++ [s])

/-- The macro-section cursor: skip sections whose name differs,
returning the matched section and the tail after it. -/
def dropToSection : List FortielSectionData → String → Option (FortielSectionData × List FortielSectionData)
  | [], _ => Option.none
  | s :: ss, nm => if s.name == nm then some (s, ss) else dropToSection ss nm

set_option maxHeartbeats 3200000

mutual

/-- FortielExecutor.execute_tree: the primary line marker and the root
node list. -/
def executeTree : Nat → Env → Scope → Macros → List String → FortielTree → Sink → ExecRes
  | 0, _, _, _, _, _, _ => .err .outOfFuel
  | n + 1, env, sc, mc, im, tree, sink =>
    match executeNodeList n env sc mc im tree.rootNodes sink with
    | .err e => .err e
    | .ok sc1 mc1 im1 out =>
      .ok sc1 mc1 im1
        ((primaryMarkerLines env.options.lineMarkerFormat tree.filePath).flatMap sink.emit ++ out)
termination_by structural x => x

/-- FortielExecutor._execute_node_list: walk the siblings, resolving a
call segment in place before executing the resulting call. -/
def executeNodeList : Nat → Env → Scope → Macros → List String → List FortielNode →
    Sink → ExecRes
  | 0, _, _, _, _, _, _ => .err .outOfFuel
  | n + 1, env, sc, mc, im, nodes, sink =>
    match nodes with
    | [] => .ok sc mc im []
    | FortielNode.callSegment fp ln spaces name argument :: rest =>
      match resolveCallSegment n mc fp ln spaces name argument rest with
      | .err e => .err e
      | .ok c rest2 =>
        match executeCallNode n env sc mc im fp ln c sink with
        | .err e => .err e
        | .ok sc1 mc1 im1 out1 =>
          match executeNodeList n env sc1 mc1 im1 rest2 sink with
          | .err e => .err e
          | .ok sc2 mc2 im2 out2 => .ok sc2 mc2 im2 (out1 ++ out2)
    | node :: rest =>
      match executeNode n env sc mc im node sink with
      | .err e => .err e
      | .ok sc1 mc1 im1 out1 =>
        match executeNodeList n env sc1 mc1 im1 rest sink with
        | .err e => .err e
        | .ok sc2 mc2 im2 out2 => .ok sc2 mc2 im2 (out1 ++ out2)
termination_by structural x => x

/-- FortielExecutor._execute_node: dispatch on the node variant; a
bare call segment reaching this point is the internal invariant
failure of the source. -/
def executeNode : Nat → Env → Scope → Macros → List String → FortielNode → Sink → ExecRes
  | 0, _, _, _, _, _, _ => .err .outOfFuel
  | n + 1, env, sc, mc, im, node, sink =>
    match node with
    | .lineList fp ln lines =>
      match executeLines n sc lines fp ln sink with
      | .err e => .err e
      | .ok sc1 out =>
        .ok sc1 mc im
          ((lineListMarkerLines env.options.lineMarkerFormat fp ln).flatMap sink.emit ++ out)
    | .useNode fp ln ipath => executeUseNode n env sc mc im fp ln ipath
    | .letNode fp ln name args ve =>
      match executeLetNode sc fp ln name args ve with
      | .err e => .err e
      | .ok sc1 => .ok sc1 mc im []
    | .delNode fp ln names =>
      match executeDelNode sc fp ln names with
      | .err e => .err e
      | .ok sc1 => .ok sc1 mc im []
    | .ifNode fp ln cond thenN elifN elseN =>
      executeIfNode n env sc mc im fp ln cond thenN elifN elseN sink
    | .doNode fp ln idx rangesE body => executeDoNode n env sc mc im fp ln idx rangesE body sink
    | .forNode fp ln names iterE body => executeForNode n env sc mc im fp ln names iterE body sink
    | .macroDirective fp ln m =>
      match executeMacroDirective mc fp ln m with
      | .err e => .err e
      | .ok mc1 => .ok sc mc1 im []
    | .resolvedCall fp ln c => executeCallNode n env sc mc im fp ln c sink
    | .callSegment _ _ _ _ _ =>
      .err (.internalError ("no evaluator for directive type FortielCallSegmentNode"))
termination_by structural x => x

/-- FortielExecutor._execute_use_node: resolve the path, skip when the
resolved path was already imported, otherwise record it and execute
the parsed file with the dummy sink so that definitions persist and
code lines are discarded. -/
def executeUseNode : Nat → Env → Scope → Macros → List String → String → Nat → String → ExecRes
  | 0, _, _, _, _, _, _, _ => .err .outOfFuel
  | n + 1, env, sc, mc, im, fp, ln, ipath =>
    match pairLookup env.resolvedPaths fp ipath with
    | Option.none =>
      .err (.fortielRuntime (ipath ++ " was not found in the include paths") fp ln)
    | some rp =>
      if im.contains rp then .ok sc mc im []
      else
        match assocLookup env.files rp with
        | Option.none => .err (.fortielRuntime ("unable to read file " ++ ipath) fp ln)
        | some tree => executeTree n env sc mc (rp :: im) tree .null
termination_by structural x => x

/-- FortielExecutor._execute_if_node: the condition picks the then
branch or hands over to the elif chain. -/
def executeIfNode : Nat → Env → Scope → Macros → List String → String → Nat → Expr →
    List FortielNode → List FortielElif → List FortielNode → Sink → ExecRes
  | 0, _, _, _, _, _, _, _, _, _, _, _ => .err .outOfFuel
  | n + 1, env, sc, mc, im, fp, ln, condE, thenN, elifN, elseN, sink =>
    match evaluateExpression sc condE fp ln with
    | .err e => .err e
    | .ok sc1 v =>
      if truthy v then executeNodeList n env sc1 mc im thenN sink
      else executeElifNodes n env sc1 mc im elifN elseN fp ln sink
termination_by structural x => x

/-- The elif chain of _execute_if_node; conditions are evaluated with
the file and line of the if node, and the else branch runs when none
is truthy. -/
def executeElifNodes : Nat → Env → Scope → Macros → List String → List FortielElif →
    List FortielNode → String → Nat → Sink → ExecRes
  | 0, _, _, _, _, _, _, _, _, _ => .err .outOfFuel
  | n + 1, env, sc, mc, im, elifs, elseN, fp, ln, sink =>
    match elifs with
    | [] => executeNodeList n env sc mc im elseN sink
    | FortielElif.mk condE thenN :: rest =>
      match evaluateExpression sc condE fp ln with
      | .err e => .err e
      | .ok sc1 v =>
        if truthy v then executeNodeList n env sc1 mc im thenN sink
        else executeElifNodes n env sc1 mc im rest elseN fp ln sink
termination_by structural x => x

/-- FortielExecutor._execute_do_node: evaluate the ranges; when they
are nonempty, save the prior loop counter, iterate, delete the index
name and write the saved counter back. -/
def executeDoNode : Nat → Env → Scope → Macros → List String → String → Nat → String →
    Expr → List FortielNode → Sink → ExecRes
  | 0, _, _, _, _, _, _, _, _, _, _ => .err .outOfFuel
  | n + 1, env, sc, mc, im, fp, ln, idx, rangesE, body, sink =>
    match evaluateRangesExpression sc rangesE fp ln with
    | .err e => .err e
    | .ok sc1 values =>
      match values with
      | [] => .ok sc1 mc im []
      | v :: vs =>
        let prev := loopIndexValue sc1
        match executeDoIter n env sc1 mc im idx (v :: vs) body sink with
        | .err e => .err e
        | .ok sc2 mc2 im2 out =>
          match pyDel sc2 idx with
          | .err e => .err e
          | .ok sc3 => .ok (dictInsert sc3 ("__LOOP_INDEX__") prev) mc2 im2 out
termination_by structural x => x

/-- The iteration of the do executor: each value is bound to the loop
counter and to the index name, then the body runs. -/
def executeDoIter : Nat → Env → Scope → Macros → List String → String → List Int →
    List FortielNode → Sink → ExecRes
  | 0, _, _, _, _, _, _, _, _ => .err .outOfFuel
  | n + 1, env, sc, mc, im, idx, values, body, sink =>
    match values with
    | [] => .ok sc mc im []
    | v :: vs =>
      let scope1 := dictInsert (dictInsert sc ("__LOOP_INDEX__") (.int v)) idx (.int v)
      match executeNodeList n env scope1 mc im body sink with
      | .err e => .err e
      | .ok sc1 mc1 im1 out1 =>
        match executeDoIter n env sc1 mc1 im1 idx vs body sink with
        | .err e => .err e
        | .ok sc2 mc2 im2 out2 => .ok sc2 mc2 im2 (out1 ++ out2)
termination_by structural x => x

/-- FortielExecutor._execute_for_node: evaluate the iterable, run the
body per element, then delete every index name, which raises the host
KeyError when one is not bound. -/
def executeForNode : Nat → Env → Scope → Macros → List String → String → Nat →
    List String → Expr → List FortielNode → Sink → ExecRes
  | 0, _, _, _, _, _, _, _, _, _, _ => .err .outOfFuel
  | n + 1, env, sc, mc, im, fp, ln, names, iterE, body, sink =>
    match evaluateExpression sc iterE fp ln with
    | .err e => .err e
    | .ok sc1 v =>
      match pyIterate v with
      | .error e => .err e
      | .ok elems =>
        match executeForIter n env sc1 mc im names elems body sink with
        | .err e => .err e
        | .ok sc2 mc2 im2 out =>
          match pyDelAll sc2 names with
          | .err e => .err e
          | .ok sc3 => .ok sc3 mc2 im2 out
termination_by structural x => x

/-- The iteration of the for executor: one name is bound directly,
several names destructure the element. -/
def executeForIter : Nat → Env → Scope → Macros → List String → List String →
    List Value → List FortielNode → Sink → ExecRes
  | 0, _, _, _, _, _, _, _, _ => .err .outOfFuel
  | n + 1, env, sc, mc, im, names, elems, body, sink =>
    match elems with
    | [] => .ok sc mc im []
    | v :: vs =>
      let scope1E : Except Err Scope :=
        match names with
        | [single] => .ok (dictInsert sc single v)
        | _ =>
          match pyIterate v with
          | .error e => .error e
          | .ok parts => .ok (assignZip sc names parts)
      match scope1E with
      | .error e => .err e
      | .ok scope1 =>
        match executeNodeList n env scope1 mc im body sink with
        | .err e => .err e
        | .ok sc1 mc1 im1 out1 =>
          match executeForIter n env sc1 mc1 im1 names vs body sink with
          | .err e => .err e
          | .ok sc2 mc2 im2 out2 => .ok sc2 mc2 im2 (out1 ++ out2)
termination_by structural x => x

/-- FortielExecutor._resolve_call_segment up to the construct scan:
look the macro up and scan forward when it is a construct. -/
def resolveCallSegment : Nat → Macros → String → Nat → String → String → String →
    List FortielNode → ResolveRes
  | 0, _, _, _, _, _, _, _ => .err .outOfFuel
  | n + 1, macros, fp, ln, spaces, name, argument, rest =>
    match assocLookup macros name with
    | Option.none =>
      .err (.fortielRuntime ("macro " ++ name ++ " was not previously defined") fp ln)
    | some m =>
      if macroIsConstruct m then
        resolveScan n macros fp ln (FortielCallData.mk spaces name argument [] [])
          ("end" ++ name) (macroSectionNames m) rest
      else .ok (FortielCallData.mk spaces name argument [] []) rest
termination_by structural x => x

/-- The construct scan of _resolve_call_segment: pop siblings into the
captured areas, open call sections, resolve nested calls, stop at the
end segment, and fail when the siblings run out. -/
def resolveScan : Nat → Macros → String → Nat → FortielCallData → String →
    List String → List FortielNode → ResolveRes
  | 0, _, _, _, _, _, _, _ => .err .outOfFuel
  | n + 1, macros, fp, ln, call, endName, sectionNames, nodes =>
    match nodes with
    | [] => .err (.fortielRuntime ("expected @" ++ endName ++ " call segment") fp ln)
    | next :: rest =>
      match next with
      | .callSegment fp2 ln2 sp2 nm2 arg2 =>
        if nm2 == endName then .ok call rest
        else if sectionNames.contains nm2 then
          resolveScan n macros fp ln
            (callDataAddSection call (FortielCallSectionData.mk fp2 ln2 nm2 arg2 []))
            endName sectionNames rest
        else
          match resolveCallSegment n macros fp2 ln2 sp2 nm2 arg2 rest with
          | .err e => .err e
          | .ok c rest2 =>
            resolveScan n macros fp ln
              (callDataAppendNode call (.resolvedCall fp2 ln2 c))
              endName sectionNames rest2
      | _ =>
        resolveScan n macros fp ln (callDataAppendNode call next) endName sectionNames rest
termination_by structural x => x

/-- FortielExecutor._execute_call_node: run the matched macro pattern
body under the indenting sink; for a construct also run the captured
nodes under the caller sink, the call sections against the macro
section cursor, and the finally body under the indenting sink. -/
def executeCallNode : Nat → Env → Scope → Macros → List String → String → Nat →
    FortielCallData → Sink → ExecRes
  | 0, _, _, _, _, _, _, _, _ => .err .outOfFuel
  | n + 1, env, sc, mc, im, fp, ln, call, sink =>
    match assocLookup mc call.name with
    | Option.none => .err (.hostError .keyError)
    | some m =>
      match executePatternListNode n env sc mc im call.argument fp ln m.name
          m.patternNodes (Sink.spaced call.spacesBefore sink) with
      | .err e => .err e
      | .ok sc1 mc1 im1 out1 =>
        if macroIsConstruct m then
          match executeNodeList n env sc1 mc1 im1 call.capturedNodes sink with
          | .err e => .err e
          | .ok sc2 mc2 im2 out2 =>
            match executeCallSections n env sc2 mc2 im2 call.callSectionNodes
                m.sectionNodes call.spacesBefore sink with
            | .err e => .err e
            | .ok sc3 mc3 im3 out3 =>
              match executeNodeList n env sc3 mc3 im3 m.finallyNodes
                  (Sink.spaced call.spacesBefore sink) with
              | .err e => .err e
              | .ok sc4 mc4 im4 out4 => .ok sc4 mc4 im4 (out1 ++ out2 ++ out3 ++ out4)
        else .ok sc1 mc1 im1 out1
termination_by structural x => x

/-- The call-section loop of _execute_call_node: advance the section
cursor to the matching macro section (error when there is none), run
that section and the captured nodes, and move the cursor past a once
section. -/
def executeCallSections : Nat → Env → Scope → Macros → List String →
    List FortielCallSectionData → List FortielSectionData → String → Sink → ExecRes
  | 0, _, _, _, _, _, _, _, _ => .err .outOfFuel
  | n + 1, env, sc, mc, im, callSecs, macroSecs, spaces, sink =>
    match callSecs with
    | [] => .ok sc mc im []
    | cs :: rest =>
      match dropToSection macroSecs cs.name with
      | Option.none =>
        .err (.fortielRuntime ("unexpected call section " ++ cs.name)
          cs.filePath cs.lineNumber)
      | some (sec, tail) =>
        match executePatternListNode n env sc mc im cs.argument cs.filePath cs.lineNumber
            sec.name sec.patternNodes (Sink.spaced spaces sink) with
        | .err e => .err e
        | .ok sc1 mc1 im1 out1 =>
          match executeNodeList n env sc1 mc1 im1 cs.capturedNodes sink with
          | .err e => .err e
          | .ok sc2 mc2 im2 out2 =>
            match executeCallSections n env sc2 mc2 im2 rest
                (if sec.once then tail else sec :: tail) spaces sink with
            | .err e => .err e
            | .ok sc3 mc3 im3 out3 => .ok sc3 mc3 im3 (out1 ++ out2 ++ out3)
termination_by structural x => x

/-- FortielExecutor._execute_pattern_list_node: the first matching
pattern merges its captures into the scope and its body runs; no match
is a runtime error. -/
def executePatternListNode : Nat → Env → Scope → Macros → List String → String →
    String → Nat → String → List FortielPatternData → Sink → ExecRes
  | 0, _, _, _, _, _, _, _, _, _, _ => .err .outOfFuel
  | n + 1, env, sc, mc, im, argument, fp, ln, mname, pats, sink =>
    match pats with
    | [] =>
      .err (.fortielRuntime ("macro " ++ mname ++ " call does not match any pattern") fp ln)
    | p :: ps =>
      match rgxMatch p.rgx argument with
      | Option.none => executePatternListNode n env sc mc im argument fp ln mname ps sink
      | some caps =>
        executeNodeList n env (caps.foldl (fun s kv => dictInsert s kv.1 kv.2) sc)
          mc im p.matchNodes sink
termination_by structural x => x

end

/-- Python str.rstrip. -/
def pyRstrip (s : String) : String :=
  String.mk ((s.data.reverse.dropWhile isPySpace).reverse)

/-- Python str.lstrip. -/
def pyLstrip (s : String) : String :=
  String.mk (s.data.dropWhile isPySpace)

/-- Python str.splitlines restricted to the newline separator, the
only one produced by the collaborators feeding the parser; note the
empty string splits into no lines and a trailing newline produces no
trailing empty line. -/
def pySplitlines (s : String) : List String :=
  let ps := splitNewlines s.data
  (match ps.getLast? with
   | some [] => ps.dropLast
   | _ => ps).map String.mk

/-- The state of FortielParser: the file path, the raw physical lines,
the current logical line, the merged multiline form, and the 0-based
physical index and 1-based number of the current line. -/
structure ParserState where
  filePath : String
  lines : List String
  line : String
  multiline : String
  lineIndex : Nat
  lineNumber : Nat

/-- Result of a parser state transition. -/
inductive ParserRes where
  | err (e : Err)
  | ok (st : ParserState)

/-- FortielParser.__init__: reading self._lines[0] raises the host
IndexError when the lines list is empty; otherwise the first physical
line becomes the current line untouched (no continuation joining
happens for it) with index 0 and number 1. -/
def parserInit (filePath : String) (lines : List String) : ParserRes :=
  match lines with
  | [] => .err (.hostError .indexError)
  | l0 :: _ =>
    .ok { filePath := filePath, lines := lines, line := l0, multiline := l0,
          lineIndex := 0, lineNumber := 1 }

/-- The continuation loop of FortielParser._advance_line: while the
current line ends with the ampersand, consume the next physical line
(stripping an optional leading ampersand), join, and keep the index
and the number pointing at the consumed physical line; the remaining
list argument holds the physical lines after the current index. -/
def advanceContinuations (filePath : String) (lines : List String) :
    List String → String → String → Nat → Nat → ParserRes
  | rem, line, multiline, idx, num =>
    if line.data.reverse.take 1 == [('&' : Char)] then
      match rem with
      | [] =>
        .err (.fortielSyntax ("unexpected end of file in continuation lines")
          filePath (num + 1))
      | next0 :: rem2 =>
        let nextR := pyRstrip next0
        let multiline2 := multiline ++ "\n" ++ nextR
        let nextL := pyLstrip nextR
        let nextL2 :=
          if nextL.data.take 1 == [('&' : Char)] then pyLstrip (String.mk (nextL.data.drop 1))
          else nextL
        let line2 := pyRstrip (String.mk line.data.dropLast) ++ " " ++ nextL2
        advanceContinuations filePath lines rem2 line2 multiline2 (idx + 1) (num + 1)
    else
      .ok { filePath := filePath, lines := lines, line := line, multiline := multiline,
            lineIndex := idx, lineNumber := num }

/-- FortielParser._advance_line: move to the next physical line and
join continuations; at the end of file the current line becomes
empty. -/
def advanceLine (st : ParserState) : ParserRes :=
  let idx := st.lineIndex + 1
  let num := st.lineNumber + 1
  match st.lines.drop idx with
  | [] =>
    .ok { st with line := "", multiline := "", lineIndex := idx, lineNumber := num }
  | cur0 :: rem =>
    let cur := pyRstrip cur0
    advanceContinuations st.filePath st.lines rem cur cur idx num

/-- The line number every directive parser records on the node it
creates: the parser state's current line number (each _parse_x_directive
passes self._line_number into the node constructor). -/
def currentNodeLineNumber (st : ParserState) : Nat :=
  st.lineNumber

/-- The parse entry of fortiel_preprocess: the file contents are split
into lines and handed to the parser constructor. -/
def fortielPreprocessInit (filePath contents : String) : ParserRes :=
  parserInit filePath (pySplitlines contents)

/-- The output of an executor result, when it succeeded. -/
def ExecRes.outputLines : ExecRes → Option (List String)
  | .ok _ _ _ out => some out
  | .err _ => Option.none

/-- The final scope lookup of an executor result, when it succeeded. -/
def ExecRes.scopeLookup (r : ExecRes) (k : String) : Option (Option Value) :=
  match r with
  | .ok sc _ _ _ => some (dictLookup sc k)
  | .err _ => Option.none

/-- True when the result is a Fortiel runtime error. -/
def ExecRes.isRuntimeError : ExecRes → Bool
  | .err (.fortielRuntime _ _ _) => true
  | _ => false

/-- Mapping over the output of a successful executor result. -/
def ExecRes.mapOutput (f : List String → List String) : ExecRes → ExecRes
  | .err e => .err e
  | .ok sc mc im out => .ok sc mc im (f out)

/-- The collected lines a sink produces from an output stream printed
line by line. -/
def homOut (sink : Sink) (out : List String) : List String :=
  out.flatMap sink.emit

/-- A sink-parameterised executor computation is a homomorphism in the
sink: its run on any sink is its run on the collect sink with the sink
emission applied to every output line. -/
def HomRes (f : Sink → ExecRes) : Prop :=
  ∀ sink : Sink, f sink = (f Sink.collect).mapOutput (homOut sink)

/-- The scope after the __FILE__ and __LINE__ update every expression
evaluation performs. -/
def insFL (scope : Scope) (fp : String) (ln : Nat) : Scope :=
  dictInsert (dictInsert scope ("__FILE__") (.str fp)) ("__LINE__") (.int (Int.ofNat ln))

/-- The list start, start+1, ..., stop, inclusive of stop: the
wording of the specification for a two-integer ranges tuple, written
independently of the executor for comparison with pyRange. -/
def inclusiveRange (start stop : Int) : List Int :=
  (List.range (stop + 1 - start).toNat).map (fun k => start + Int.ofNat k)

/-- The condition expression the parser builds for an ifdef directive:
_parse_ifdef_directive produces the text defined("NAME"), a call of
the free name defined on the quoted name. -/
def parsedIfdefCondition (name : String) : Expr :=
  .call1 (.var ("defined")) (.lit (.str name))

/-- The condition expression the parser builds for an ifndef
directive: not defined("NAME"). -/
def parsedIfndefCondition (name : String) : Expr :=
  .notE (parsedIfdefCondition name)

/-- True when no character of the line belongs to the trigger classes
of the four substitution passes (dollar, at, caret). -/
def noSubMarkers (cs : List Char) : Bool :=
  cs.all (fun c => !(c == '$' || c == '@' || c == '^'))

/-- An environment with no line markers and an empty file system, for
concrete runs. -/
def envNoMarkers : Env :=
  { options := { lineMarkerFormat := .noMarkers }, resolvedPaths := [], files := [] }

/-- The parsed tree of the imported file of the concrete import
scenario: a definition and a code line. -/
def defsTree : FortielTree :=
  { filePath := "defs.fi",
    rootNodes :=
      [FortielNode.letNode ("defs.fi") 1 ("N") Option.none (Expr.lit (.int 3)),
       FortielNode.lineList ("defs.fi") 2 ["integer n"]] }

/-- An environment whose file system resolves defs.fi from main.f90
to one absolute path, for the concrete import scenario. -/
def envUse : Env :=
  { options := { lineMarkerFormat := .fpp },
    resolvedPaths := [(("main.f90", "defs.fi"), "/abs/defs.fi")],
    files := [("/abs/defs.fi", defsTree)] }

/-- The do body used by the amended frame theorem: a line list is
emitted on the then branch of a test that both the index name and the
loop counter are bound and equal. -/
def c4Body (fp : String) (ln : Nat) : List FortielNode :=
  [FortielNode.ifNode fp ln (Expr.eqE (.var ("I")) (.var ("__LOOP_INDEX__")))
    [FortielNode.lineList fp ln ["bound"]] [] [FortielNode.lineList fp ln ["unbound"]]]

/-- C2: the claim says executing ifdef NAME runs its then branch when
NAME is in scope and its else branch otherwise, and ifndef
symmetrically, without raising an error in either case.  The code
contradicts this: the parser builds the condition defined("NAME"), but
the executor never exposes any defined callable to eval (the method
_defined is dead code), so evaluating the condition raises NameError,
wrapped into a Fortiel runtime error, whether or not NAME is bound.
This theorem evaluates the code at the failing inputs: ifdef X with X
unbound, ifdef X with X bound, and ifndef X, all raise the runtime
error instead of selecting a branch. -/
theorem c2_ifdef_defined_is_broken :
    executeNode 8 envNoMarkers [] [] []
      (FortielNode.ifNode ("f") 1 (parsedIfdefCondition ("X"))
        [FortielNode.lineList ("f") 2 ["a"]] [] [FortielNode.lineList ("f") 4 ["b"]])
      .collect
      = .err (.fortielRuntime
          ("Python expression evaluation error: name defined is not defined") ("f") 1)
  ∧ executeNode 8 envNoMarkers [("X", .int 1)] [] []
      (FortielNode.ifNode ("f") 1 (parsedIfdefCondition ("X"))
        [FortielNode.lineList ("f") 2 ["a"]] [] [FortielNode.lineList ("f") 4 ["b"]])
      .collect
      = .err (.fortielRuntime
          ("Python expression evaluation error: name defined is not defined") ("f") 1)
  ∧ executeNode 8 envNoMarkers [] [] []
      (FortielNode.ifNode ("f") 1 (parsedIfndefCondition ("X"))
        [FortielNode.lineList ("f") 2 ["a"]] [] [FortielNode.lineList ("f") 4 ["b"]])
      .collect
      = .err (.fortielRuntime
          ("Python expression evaluation error: name defined is not defined") ("f") 1) :=
  ⟨rfl, rfl, rfl⟩

/-- C5: the claim (and the comment inside _execute_let_node) says a
value-form let must be rejected when the name is builtin or already
bound.  The code only implements the builtin check: this theorem
evaluates the code at the failing input, two successive value lets of
the same name X, and the second one succeeds silently, overwriting X
with the new value; the builtin rejection, by contrast, works. -/
theorem c5_let_already_bound_not_rejected :
    executeLetNode [] ("f") 1 ("X") Option.none (Expr.lit (.int 1))
      = .ok [("__FILE__", .str ("f")), ("__LINE__", .int 1), ("X", .int 1)]
  ∧ executeLetNode [("__FILE__", .str ("f")), ("__LINE__", .int 1), ("X", .int 1)]
      ("f") 2 ("X") Option.none (Expr.lit (.int 2))
      = .ok [("__FILE__", .str ("f")), ("__LINE__", .int 2), ("X", .int 2)]
  ∧ executeLetNode [] ("f") 3 ("__INDEX__") Option.none (Expr.lit (.int 0))
      = .err (.fortielRuntime ("builtin name <__INDEX__> can not be redefined") ("f") 3) :=
  ⟨rfl, rfl, rfl⟩

/-- C10: constructing the parser on the zero lines of an empty file
raises an unhandled host IndexError when reading the first line, not a
Fortiel syntax error and not an empty tree; on any nonempty lines list
the constructor succeeds, so parsing carries the unstated precondition
that the lines list is nonempty. -/
theorem c10_empty_file_parser_index_error :
    fortielPreprocessInit ("input.f90") ("") = .err (.hostError .indexError)
  ∧ (∀ fp l ls, parserInit fp (l :: ls)
      = .ok { filePath := fp, lines := l :: ls, line := l, multiline := l,
              lineIndex := 0, lineNumber := 1 }) :=
  ⟨rfl, fun _ _ _ => rfl⟩

/-- C6 counterexample: the claim says the line number recorded on a
node parsed from a joined logical line is the number of the first
physical line of the continuation.  Advancing onto the continuation
spanning physical lines 2 and 3 leaves the parser at line number 3,
the last physical line, and that is the number every directive parser
records on the node it creates; 3 is not 2. -/
theorem c6_counterexample :
    advanceLine { filePath := "f", lines := ["a", "b &", "c"], line := "a",
                  multiline := "a", lineIndex := 0, lineNumber := 1 }
      = .ok { filePath := "f", lines := ["a", "b &", "c"], line := "b c",
              multiline := "b &\nc", lineIndex := 2, lineNumber := 3 }
  ∧ currentNodeLineNumber
      { filePath := "f", lines := ["a", "b &", "c"], line := "b c",
        multiline := "b &\nc", lineIndex := 2, lineNumber := 3 } = 3
  ∧ (3 : Nat) ≠ 2 :=
  ⟨rfl, rfl, by decide⟩

/-- C7 counterexample: the claim says a code line of the form
LHS += RHS is rewritten into LHS = LHS + RHS by the substitution
engine.  The engine of fortiel.py has no augmented-assignment pass at
all: the line x += 1 passes through every pass unchanged. -/
theorem c7_counterexample :
    evaluateLine 16 [] ("x += 1") ("f") 1 = .ok [] ("x += 1")
  ∧ ("x += 1" : String) ≠ ("x = x + 1") :=
  ⟨rfl, by decide⟩

/-- C1 counterexample: the claim says that for a three-integer ranges
tuple the iterated values are start, start+step, ... inclusive of stop
with no value beyond stop.  Executing a do node over the tuple
(1, 6, 2) runs the body for 1, 3, 5 and 7: the stop value 6 is never
iterated and the value 7 exceeds it, because the executor builds
range(start, stop + step, step). -/
theorem c1_counterexample :
    executeDoNode 40 envNoMarkers [] [] [] ("f") 1 ("I")
      (Expr.lit (.tuple [.int 1, .int 6, .int 2]))
      [FortielNode.lineList ("f") 2 ["x($I) = 0"]] .collect
      = .ok [("__FILE__", .str ("f")), ("__LINE__", .int 2), ("__LOOP_INDEX__", .none)] [] []
          ["x(1) = 0", "x(3) = 0", "x(5) = 0", "x(7) = 0"]
  ∧ ("x(6) = 0" : String) ∉ ["x(1) = 0", "x(3) = 0", "x(5) = 0", "x(7) = 0"]
  ∧ (7 : Int) > 6 :=
  ⟨rfl, by decide, by decide⟩

/-- C4 counterexample: the claim says the do executor binds the
builtin name __INDEX__ (together with the named index) during each
iteration, so a body line reading it would see the iteration value.
The executor actually binds the key __LOOP_INDEX__ and never binds
__INDEX__: the body substitution of the first do node raises the
wrapped NameError for __INDEX__, while the same loop reading
__LOOP_INDEX__ emits the iteration value. -/
theorem c4_counterexample :
    executeDoNode 40 envNoMarkers [] [] [] ("f") 1 ("I")
      (Expr.lit (.tuple [.int 1, .int 1]))
      [FortielNode.lineList ("f") 2 ["$__INDEX__"]] .collect
      = .err (.fortielRuntime
          ("Python expression evaluation error: name __INDEX__ is not defined") ("f") 2)
  ∧ executeDoNode 40 envNoMarkers [] [] [] ("f") 1 ("I")
      (Expr.lit (.tuple [.int 1, .int 1]))
      [FortielNode.lineList ("f") 2 ["$__LOOP_INDEX__"]] .collect
      = .ok [("__FILE__", .str ("f")), ("__LINE__", .int 2), ("__LOOP_INDEX__", .none)] [] []
          ["1"] :=
  ⟨rfl, rfl⟩

/-- C8 counterexample: the claim says every non-marker line emitted
from a matched call pattern body begins with the call segment's
leading spaces.  The indenting sink skips every line whose stripped
content starts with a hash character, marker or not: with line
markers disabled, a body code line starting with a hash is emitted
without the indentation, while the other body line receives it. -/
theorem c8_counterexample :
    (executeNodeList 20 envNoMarkers [] [] []
      [FortielNode.macroDirective ("f") 1
        (FortielMacroData.mk ("sq")
          [FortielPatternData.mk ("f") 1 .matchAny
            [FortielNode.lineList ("f") 2 ["#foo", "y = 1"]]] [] []),
       FortielNode.callSegment ("f") 5 ("  ") ("sq") ("")] .collect).outputLines
      = some ["#foo", "  y = 1"]
  ∧ ("#foo" : String) ≠ ("  " ++ "#foo") :=
  ⟨rfl, by decide⟩

/-- Mapping over the output of a successful line list result. -/
def OutRes.mapOutput (f : List String → List String) : OutRes → OutRes
  | .err e => .err e
  | .ok sc out => .ok sc (f out)

/-- Lookup after inserting the same key. -/
theorem dictLookup_insert_self (s : Scope) (k : String) (v : Value) :
    dictLookup (dictInsert s k v) k = some v := by
  induction s with
  | nil => simp [dictInsert, dictLookup]
  | cons p rest ih =>
    by_cases h : p.1 = k
    · simp [dictInsert, dictLookup, h]
    · simp [dictInsert, dictLookup, h, ih]

/-- Lookup after inserting a different key. -/
theorem dictLookup_insert_other (s : Scope) (k k2 : String) (v : Value) (h : k ≠ k2) :
    dictLookup (dictInsert s k v) k2 = dictLookup s k2 := by
  induction s with
  | nil => simp [dictInsert, dictLookup, h]
  | cons p rest ih =>
    rcases p with ⟨k1, v1⟩
    by_cases h2 : k1 = k
    · subst h2
      simp [dictInsert, dictLookup, h]
    · by_cases h3 : k1 = k2 <;> simp [dictInsert, dictLookup, h2, h3, Ne.symm h, ih]

/-- Inserting the value a key already has leaves the dict unchanged. -/
theorem dictInsert_self (s : Scope) (k : String) (v : Value)
    (h : dictLookup s k = some v) : dictInsert s k v = s := by
  induction s with
  | nil => simp [dictLookup] at h
  | cons p rest ih =>
    rcases p with ⟨k1, v1⟩
    by_cases h2 : k1 = k
    · subst h2
      simp [dictLookup] at h
      simp [dictInsert, h]
    · simp [dictLookup, h2] at h
      simp [dictInsert, h2, ih h]

/-- Erasing a key preserves every other lookup. -/
theorem dictLookup_erase_other (s : Scope) (k k2 : String) (h : k ≠ k2) :
    dictLookup (dictErase s k) k2 = dictLookup s k2 := by
  induction s with
  | nil => simp [dictErase]
  | cons p rest ih =>
    rcases p with ⟨k1, v1⟩
    by_cases h2 : k1 = k
    · subst h2
      simp [dictErase, dictLookup, h]
    · by_cases h3 : k1 = k2 <;> simp [dictErase, dictLookup, h2, h3, Ne.symm h, ih]

/-- The two-integer ranges build is the inclusive list of the spec
wording: range(start, stop + 1) is start, ..., stop inclusive. -/
theorem pyRange_two (a b : Int) : pyRange a (b + 1) 1 = inclusiveRange a b := by
  simp [pyRange, pyRangeLen, inclusiveRange]

/-- Bounds and divisibility of the iterated values for a positive
step: each value is at least start, below stop + step, and congruent
to start modulo step. -/
theorem mem_pyRange_pos (a B c : Int) (hc : 0 < c) (v : Int) (hv : v ∈ pyRange a B c) :
    a ≤ v ∧ v < B ∧ c ∣ (v - a) := by
  simp only [pyRange, List.mem_map, List.mem_range] at hv
  obtain ⟨k, hk, rfl⟩ := hv
  have hn : 0 < c.toNat := by omega
  have hcC : (c.toNat : Int) = c := Int.toNat_of_nonneg hc.le
  have hkn : (0 : Int) ≤ (k : Int) := Int.natCast_nonneg k
  have hK : (0 : Int) ≤ c * Int.ofNat k := by
    simp only [Int.ofNat_eq_coe]
    exact mul_nonneg hc.le hkn
  have hlen : pyRangeLen a B c = ((B - a + c - 1).toNat) / c.toNat := by
    simp [pyRangeLen, hc]
  rw [hlen] at hk
  have hmul : (k + 1) * c.toNat ≤ (B - a + c - 1).toNat :=
    (Nat.le_div_iff_mul_le hn).mp hk
  refine ⟨by linarith [hK], ?_, ⟨Int.ofNat k, by ring⟩⟩
  by_cases hd : 0 ≤ B - a + c - 1
  · have h2 : (((k + 1) * c.toNat : Nat) : Int) ≤ B - a + c - 1 := by
      calc (((k + 1) * c.toNat : Nat) : Int)
          ≤ ((B - a + c - 1).toNat : Int) := by exact_mod_cast hmul
        _ = B - a + c - 1 := Int.toNat_of_nonneg hd
    have h3 : ((k : Int) + 1) * c ≤ B - a + c - 1 := by
      push_cast at h2
      rw [hcC] at h2
      exact h2
    simp only [Int.ofNat_eq_coe]
    nlinarith [h3]
  · exfalso
    have hz : (B - a + c - 1).toNat = 0 := Int.toNat_of_nonpos (by omega)
    rw [hz, Nat.le_zero] at hmul
    rcases Nat.mul_eq_zero.mp hmul with h4 | h4
    · omega
    · omega

/-- C1 amended: a two-integer ranges tuple (start, stop) makes the do
executor iterate exactly start, ..., stop inclusive, as claimed; a
three-integer tuple (start, stop, step) iterates the values of
range(start, stop + step, step): for positive step every value is at
least start, below stop + step and congruent to start modulo step, so
stop itself is iterated only when step divides stop - start and the
last value may exceed stop by up to step - 1.  The final conjunct runs
the executor on the spec scenario do I = (1, 3) and observes the three
inclusive iterations. -/
theorem c1_amended (scope : Scope) (fp : String) (ln : Nat) (a b c : Int) (hc : c ≠ 0) :
    (evaluateRangesExpression scope (Expr.lit (.tuple [.int a, .int b])) fp ln
        = .ok (insFL scope fp ln) (inclusiveRange a b))
  ∧ (evaluateRangesExpression scope (Expr.lit (.tuple [.int a, .int b, .int c])) fp ln
        = .ok (insFL scope fp ln) (pyRange a (b + c) c))
  ∧ (0 < c → ∀ v ∈ pyRange a (b + c) c, a ≤ v ∧ v < b + c ∧ c ∣ (v - a))
  ∧ executeDoNode 40 envNoMarkers [] [] [] ("f") 1 ("I")
      (Expr.lit (.tuple [.int 1, .int 3]))
      [FortielNode.lineList ("f") 2 ["x($I) = 0"]] .collect
      = .ok [("__FILE__", .str ("f")), ("__LINE__", .int 2), ("__LOOP_INDEX__", .none)] [] []
          ["x(1) = 0", "x(2) = 0", "x(3) = 0"] := by
  refine ⟨?_, ?_, ?_, by rfl⟩
  · rw [← pyRange_two]
    rfl
  · have : (c == 0) = false := by simp [hc]
    simp [evaluateRangesExpression, evaluateExpression, evalExpr, insFL, this]
  · intro hpos v hv
    exact mem_pyRange_pos a (b + c) c hpos v hv

/-- C1 amended witness: the theorem applied at the concrete tuple
(1, 6, 2). -/
theorem c1_amended_witness :
    evaluateRangesExpression [] (Expr.lit (.tuple [.int 1, .int 6, .int 2])) ("f") 1
      = .ok (insFL [] ("f") 1) (pyRange 1 (6 + 2) 2) :=
  (c1_amended [] ("f") 1 1 6 2 (by decide)).2.1

/-- The continuation loop keeps the line number equal to the 1-based
number of the physical line at the current index. -/
theorem advanceContinuations_number : ∀ (rem : List String) (fp : String)
    (lines : List String) (line ml : String) (idx num : Nat) (st2 : ParserState),
    num = idx + 1 →
    advanceContinuations fp lines rem line ml idx num = .ok st2 →
    st2.lineNumber = st2.lineIndex + 1 := by
  intro rem
  induction rem with
  | nil =>
    intro fp lines line ml idx num st2 hinv h
    simp only [advanceContinuations] at h
    split at h
    · exact absurd h (by simp)
    · cases h
      simpa using hinv
  | cons next0 rem2 ih =>
    intro fp lines line ml idx num st2 hinv h
    simp only [advanceContinuations] at h
    split at h
    · exact ih fp lines _ _ (idx + 1) (num + 1) st2 (by omega) h
    · cases h
      simpa using hinv

/-- C6 amended: the line number on the parser after assembling a
logical line — the number recorded on every node parsed from it — is
the 1-based number of the LAST physical line of the continuation, not
the first: advancing preserves the invariant that the line number is
the current physical index plus one. -/
theorem c6_amended (st st2 : ParserState) (h : st.lineNumber = st.lineIndex + 1)
    (h2 : advanceLine st = .ok st2) : st2.lineNumber = st2.lineIndex + 1 := by
  simp only [advanceLine] at h2
  rcases hdrop : st.lines.drop (st.lineIndex + 1) with _ | ⟨cur0, rem⟩
  · rw [hdrop] at h2
    cases h2
    simpa using h
  · rw [hdrop] at h2
    exact advanceContinuations_number rem st.filePath st.lines (pyRstrip cur0)
      (pyRstrip cur0) (st.lineIndex + 1) (st.lineNumber + 1) st2 (by omega) h2

/-- C6 amended witness: the theorem applied to the continuation that
joins physical lines 2 and 3, where the recorded number is 3 = 2 + 1,
the last physical line. -/
theorem c6_amended_witness :
    ({ filePath := "f", lines := ["a", "b &", "c"], line := "b c",
       multiline := "b &\nc", lineIndex := 2, lineNumber := 3 } : ParserState).lineNumber
      = ({ filePath := "f", lines := ["a", "b &", "c"], line := "b c",
           multiline := "b &\nc", lineIndex := 2, lineNumber := 3 } : ParserState).lineIndex + 1 :=
  c6_amended
    { filePath := "f", lines := ["a", "b &", "c"], line := "a",
      multiline := "a", lineIndex := 0, lineNumber := 1 }
    { filePath := "f", lines := ["a", "b &", "c"], line := "b c",
      multiline := "b &\nc", lineIndex := 2, lineNumber := 3 }
    rfl rfl

/-- Marker-freeness restricts to any subset of the characters. -/
theorem noSubMarkers_of_subset {l1 l2 : List Char} (hs : l1 ⊆ l2)
    (h : noSubMarkers l2 = true) : noSubMarkers l1 = true := by
  simp only [noSubMarkers, List.all_eq_true] at h ⊢
  intro c hc
  exact h c (hs hc)

/-- The head and tail facts of a marker-free cons. -/
theorem noSubMarkers_cons {c : Char} {cs : List Char}
    (h : noSubMarkers (c :: cs) = true) :
    (c == '$') = false ∧ (c == '@') = false ∧ (c == '^') = false ∧ noSubMarkers cs = true := by
  simp only [noSubMarkers, List.all_cons, Bool.and_eq_true, Bool.not_eq_true ] at h
  rcases h with ⟨h1, h2⟩
  refine ⟨?_, ?_, ?_, h2⟩ <;>
    [skip; skip; skip] <;>
    cases hc1 : (c == '$') <;> cases hc2 : (c == '@') <;> cases hc3 : (c == '^') <;>
      simp_all

/-- A marker-free list admits no short loop match. -/
theorem shortLoopCore_none (l : List Char) (h : noSubMarkers l = true) :
    shortLoopCore l = Option.none := by
  cases l with
  | nil => rfl
  | cons m rest =>
    obtain ⟨_, h2, h3, _⟩ := noSubMarkers_cons h
    simp [shortLoopCore, h2, h3]

/-- Membership in a dropWhile suffix implies membership in the list. -/
theorem memOfMemDropWhile {p : Char → Bool} :
    ∀ {l : List Char} {x : Char}, x ∈ l.dropWhile p → x ∈ l := by
  intro l
  induction l with
  | nil => intro x h; simp at h
  | cons a t ih =>
    intro x h
    rw [List.dropWhile_cons] at h
    by_cases hp : p a = true
    · simp only [hp, if_true] at h
      exact List.mem_cons_of_mem a (ih h)
    · simp only [hp, if_false] at h
      exact h

/-- The OpenMP prefix test fails on a marker-free line: the second
character of the prefix is a dollar sign. -/
theorem ompCheck_false (cs : List Char) (h : noSubMarkers cs = true) :
    ((cs.dropWhile isPySpace).take 2 == ['!', '$']) = false := by
  cases hq : ((cs.dropWhile isPySpace).take 2 == ['!', '$']) with
  | false => rfl
  | true =>
    exfalso
    have heq : (cs.dropWhile isPySpace).take 2 = ['!', '$'] := by
      exact eq_of_beq hq
    have hmem : ('$' : Char) ∈ cs := by
      have h1 : ('$' : Char) ∈ (cs.dropWhile isPySpace).take 2 := by
        rw [heq]; simp
      have h2 : ('$' : Char) ∈ cs.dropWhile isPySpace := List.mem_of_mem_take h1
      exact memOfMemDropWhile h2
    have hall : ∀ c ∈ cs, (!(c == '$' || c == '@' || c == '^')) = true := by
      simpa only [noSubMarkers, List.all_eq_true] using h
    have := hall ('$' : Char) hmem
    simp at this

/-- The short expression pass is the identity on marker-free lines. -/
theorem subShortEval_id : ∀ (cs : List Char) (n : Nat) (scope : Scope) (fp : String) (ln : Nat),
    cs.length < n → noSubMarkers cs = true →
    subShortEval n scope cs fp ln = .ok scope cs := by
  intro cs
  induction cs with
  | nil =>
    intro n scope fp ln hn hm
    cases n with
    | zero => omega
    | succ m => simp [subShortEval]
  | cons c cs ih =>
    intro n scope fp ln hn hm
    obtain ⟨h1, h2, h3, h4⟩ := noSubMarkers_cons hm
    cases n with
    | zero => omega
    | succ m =>
      have hrec := ih m scope fp ln (by simp only [List.length_cons] at hn; omega) h4
      simp [subShortEval, h1, h2, hrec]

/-- The braced expression pass is the identity on marker-free lines. -/
theorem subInlineEval_id : ∀ (cs : List Char) (n : Nat) (scope : Scope) (fp : String) (ln : Nat),
    cs.length < n → noSubMarkers cs = true →
    subInlineEval n scope cs fp ln = .ok scope cs := by
  intro cs
  induction cs with
  | nil =>
    intro n scope fp ln hn hm
    cases n with
    | zero => omega
    | succ m => simp [subInlineEval]
  | cons c cs ih =>
    intro n scope fp ln hn hm
    obtain ⟨h1, h2, h3, h4⟩ := noSubMarkers_cons hm
    cases n with
    | zero => omega
    | succ m =>
      have hrec := ih m scope fp ln (by simp only [List.length_cons] at hn; omega) h4
      simp [subInlineEval, h1, hrec]

/-- The short loop pass is the identity on marker-free lines. -/
theorem subShortLoop_id : ∀ (cs : List Char) (n : Nat) (scope : Scope) (fp : String) (ln : Nat),
    cs.length < n → noSubMarkers cs = true →
    subShortLoop n scope cs fp ln = .ok scope cs := by
  intro cs
  induction cs with
  | nil =>
    intro n scope fp ln hn hm
    cases n with
    | zero => omega
    | succ m => simp [subShortLoop]
  | cons c cs ih =>
    intro n scope fp ln hn hm
    obtain ⟨h1, h2, h3, h4⟩ := noSubMarkers_cons hm
    cases n with
    | zero => omega
    | succ m =>
      have hrec := ih m scope fp ln (by simp only [List.length_cons] at hn; omega) h4
      have hdropm : noSubMarkers (cs.drop (cs.takeWhile isPySpace).length) = true :=
        noSubMarkers_of_subset (List.drop_subset _ _) h4
      by_cases hc : c = ','
      · subst hc
        simp [subShortLoop, shortLoopCore_none _ hdropm, hrec]
      · have hall : noSubMarkers (c :: cs) = true := hm
        simp [subShortLoop, hc, shortLoopCore_none _ hall, hrec]

/-- The braced loop pass is the identity on marker-free lines. -/
theorem subInlineLoop_id : ∀ (cs : List Char) (n : Nat) (scope : Scope) (fp : String) (ln : Nat),
    cs.length < n → noSubMarkers cs = true →
    subInlineLoop n scope cs fp ln = .ok scope cs := by
  intro cs
  induction cs with
  | nil =>
    intro n scope fp ln hn hm
    cases n with
    | zero => omega
    | succ m => simp [subInlineLoop]
  | cons c cs ih =>
    intro n scope fp ln hn hm
    obtain ⟨h1, h2, h3, h4⟩ := noSubMarkers_cons hm
    cases n with
    | zero => omega
    | succ m =>
      have hrec := ih m scope fp ln (by simp only [List.length_cons] at hn; omega) h4
      by_cases hc : c = ','
      · subst hc
        simp only [subInlineLoop, beq_self_eq_true, if_true]
        split
        · next m1 body heq =>
          have hm1 : m1 ∈ cs := by
            have : m1 ∈ cs.drop (cs.takeWhile isPySpace).length := by
              rw [heq]; simp
            exact List.drop_subset _ _ this
          have hall : ∀ x ∈ cs, (!(x == '$' || x == '@' || x == '^')) = true := by
            simpa only [noSubMarkers, List.all_eq_true] using h4
          have := hall m1 hm1
          have hm1f : (m1 == '^') = false ∧ (m1 == '@') = false := by
            cases e1 : (m1 == '^') <;> cases e2 : (m1 == '@') <;> simp_all
          simp [hm1f.1, hm1f.2, hrec]
        · simp [hrec]
      · simp [subInlineLoop, hc, h2, h3, hrec]

/-- The whole substitution engine is the identity on marker-free
lines. -/
theorem evaluateLineChars_id (cs : List Char) (n : Nat) (scope : Scope) (fp : String)
    (ln : Nat) (hn : cs.length + 1 < n) (hm : noSubMarkers cs = true) :
    evaluateLineChars n scope cs fp ln = .ok scope cs := by
  cases n with
  | zero => omega
  | succ m =>
    simp only [evaluateLineChars, subInlineLoop_id cs m scope fp ln (by omega) hm,
      subShortLoop_id cs m scope fp ln (by omega) hm,
      subInlineEval_id cs m scope fp ln (by omega) hm,
      ompCheck_false cs hm,
      subShortEval_id cs m scope fp ln (by omega) hm,
      Bool.false_eq_true, if_false]

/-- C7 amended: the substitution engine of fortiel.py has no
augmented-assignment pass; a line containing none of the substitution
trigger characters (dollar, at, caret) — in particular any plain
LHS += RHS or LHS -= RHS line — is emitted exactly as written. -/
theorem c7_amended (line : String) (scope : Scope) (fp : String) (ln n : Nat)
    (hm : noSubMarkers line.data = true) (hn : line.data.length + 2 ≤ n) :
    evaluateLine n scope line fp ln = .ok scope line := by
  simp only [evaluateLine]
  rw [evaluateLineChars_id line.data n scope fp ln (by omega) hm]

/-- C7 amended witness: the theorem applied to the line y -= 2. -/
theorem c7_amended_witness :
    evaluateLine 16 [] ("y -= 2") ("f") 1 = .ok [] ("y -= 2") :=
  c7_amended ("y -= 2") [] ("f") 1 16 (by decide) (by decide)

/-- A key absent from the key list looks up to nothing. -/
theorem dictLookup_eq_none (s : Scope) (k : String) (h : k ∉ s.map Prod.fst) :
    dictLookup s k = Option.none := by
  induction s with
  | nil => rfl
  | cons p rest ih =>
    simp only [List.map_cons, List.mem_cons] at h
    push_neg at h
    have h1 : p.1 ≠ k := fun he => h.1 he.symm
    simp [dictLookup, h1, ih h.2]

/-- Membership in the keys after an insertion. -/
theorem mem_keys_insert (s : Scope) (k : String) (v : Value) (x : String)
    (h : x ∈ (dictInsert s k v).map Prod.fst) : x ∈ s.map Prod.fst ∨ x = k := by
  induction s with
  | nil => simp [dictInsert] at h; simp [h]
  | cons p rest ih =>
    rcases p with ⟨k1, v1⟩
    by_cases h2 : k1 = k
    · subst h2
      simp only [dictInsert, beq_self_eq_true, if_true, List.map_cons, List.mem_cons] at h
      rcases h with h | h
      · simp [h]
      · simp [h]
    · simp only [dictInsert, List.map_cons, List.mem_cons] at h
      rw [if_neg (by simpa using h2)] at h
      simp only [List.map_cons, List.mem_cons] at h
      rcases h with h | h
      · simp [h]
      · rcases ih h with h | h
        · simp [h]
        · simp [h]

/-- Insertion preserves the uniqueness of the keys. -/
theorem dictInsert_keys_nodup (s : Scope) (k : String) (v : Value)
    (h : (s.map Prod.fst).Nodup) : ((dictInsert s k v).map Prod.fst).Nodup := by
  induction s with
  | nil => simp [dictInsert]
  | cons p rest ih =>
    rcases p with ⟨k1, v1⟩
    simp only [List.map_cons, List.nodup_cons] at h
    by_cases h2 : k1 = k
    · subst h2
      simp only [dictInsert, beq_self_eq_true, if_true, List.map_cons, List.nodup_cons]
      exact ⟨h.1, h.2⟩
    · simp only [dictInsert]
      rw [if_neg (by simpa using h2)]
      simp only [List.map_cons, List.nodup_cons]
      refine ⟨?_, ih h.2⟩
      intro hmem
      rcases mem_keys_insert rest k v k1 hmem with hin | heq
      · exact h.1 hin
      · exact h2 heq

/-- The keys after an erasure are a sublist of the keys. -/
theorem dictErase_keys_sublist (s : Scope) (k : String) :
    ((dictErase s k).map Prod.fst).Sublist (s.map Prod.fst) := by
  induction s with
  | nil => simp [dictErase]
  | cons p rest ih =>
    rcases p with ⟨k1, v1⟩
    by_cases h2 : k1 = k
    · subst h2
      simp only [dictErase, beq_self_eq_true, if_true, List.map_cons]
      exact List.sublist_cons_of_sublist _ (List.Sublist.refl _)
    · simp only [dictErase]
      rw [if_neg (by simpa using h2)]
      simp only [List.map_cons]
      exact List.Sublist.cons₂ _ ih

/-- Erasure preserves the uniqueness of the keys. -/
theorem dictErase_keys_nodup (s : Scope) (k : String)
    (h : (s.map Prod.fst).Nodup) : ((dictErase s k).map Prod.fst).Nodup :=
  h.sublist (dictErase_keys_sublist s k)

/-- With unique keys, an erased key is gone. -/
theorem dictLookup_erase_self (s : Scope) (k : String)
    (hkeys : (s.map Prod.fst).Nodup) : dictLookup (dictErase s k) k = Option.none := by
  induction s with
  | nil => rfl
  | cons p rest ih =>
    rcases p with ⟨k1, v1⟩
    simp only [List.map_cons, List.nodup_cons] at hkeys
    by_cases h2 : k1 = k
    · subst h2
      simp only [dictErase, beq_self_eq_true, if_true]
      exact dictLookup_eq_none rest k1 hkeys.1
    · simp only [dictErase]
      rw [if_neg (by simpa using h2)]
      simp [dictLookup, h2, ih hkeys.2]

/-- The deletion epilogue of the for executor removes every name when
all are bound, keeps the other keys, and preserves key uniqueness. -/
theorem pyDelAll_removes : ∀ (nms : List String) (s : Scope), nms.Nodup →
    (s.map Prod.fst).Nodup →
    (∀ x ∈ nms, (dictLookup s x).isSome) →
    ∃ sF, pyDelAll s nms = .ok sF ∧ (∀ x ∈ nms, dictLookup sF x = Option.none)
      ∧ (∀ k, k ∉ nms → dictLookup sF k = dictLookup s k) := by
  intro nms
  induction nms with
  | nil =>
    intro s hnd hk hb
    exact ⟨s, rfl, by simp, fun k _ => rfl⟩
  | cons x xs ih =>
    intro s hnd hk hb
    simp only [List.nodup_cons] at hnd
    have hx : (dictLookup s x).isSome := hb x (by simp)
    rcases hlook : dictLookup s x with _ | v
    · rw [hlook] at hx; simp at hx
    · have hb2 : ∀ y ∈ xs, (dictLookup (dictErase s x) y).isSome := by
        intro y hy
        rw [dictLookup_erase_other s x y (fun he => hnd.1 (he ▸ hy))]
        exact hb y (by simp [hy])
      obtain ⟨sF, hF1, hF2, hF3⟩ := ih (dictErase s x) hnd.2 (dictErase_keys_nodup s x hk) hb2
      refine ⟨sF, ?_, ?_, ?_⟩
      · simp [pyDelAll, pyDel, hlook, hF1]
      · intro y hy
        rcases List.mem_cons.mp hy with rfl | hy2
        · rw [hF3 y hnd.1]
          exact dictLookup_erase_self s y hk
        · exact hF2 y hy2
      · intro k hkmem
        simp only [List.mem_cons] at hkmem
        push_neg at hkmem
        rw [hF3 k hkmem.2]
        exact dictLookup_erase_other s x k (Ne.symm hkmem.1)

/-- C9: executing a for node whose iterable is empty still runs the
deletion epilogue.  First conjunct: when the first index name was not
bound before the loop, the zero-iteration for node dies with the
unhandled host KeyError (not a Fortiel runtime error).  Second
conjunct: the do executor guards the empty range and performs no
binding or deletion at all; its only state effect is the ambient
__FILE__ and __LINE__ refresh of the ranges evaluation, so every
other key of the scope is untouched and nothing is emitted.  Third
conjunct: when every index name is bound before the loop, the empty
for node succeeds and each index name has been deleted from the
scope. -/
theorem c9_empty_for_deletion (n : Nat) (env : Env) (sc : Scope) (mc : Macros)
    (im : List String) (fp : String) (ln : Nat) (nm : String) (rest : List String)
    (body : List FortielNode) (sink : Sink) (idx : String) (a b : Int)
    (hkeys : (sc.map Prod.fst).Nodup)
    (hnm1 : dictLookup sc nm = Option.none) (h2 : nm ≠ "__FILE__") (h3 : nm ≠ "__LINE__")
    (hba : b < a) :
    executeForNode (n + 2) env sc mc im fp ln (nm :: rest) (Expr.lit (.tuple [])) body sink
      = .err (.hostError .keyError)
  ∧ (executeDoNode (n + 2) env sc mc im fp ln idx (Expr.lit (.tuple [.int a, .int b])) body sink
      = .ok (insFL sc fp ln) mc im []
     ∧ ∀ k, k ≠ "__FILE__" → k ≠ "__LINE__" →
         dictLookup (insFL sc fp ln) k = dictLookup sc k)
  ∧ (∀ nms : List String, nms.Nodup →
      (∀ x ∈ nms, (dictLookup sc x).isSome ∧ x ≠ "__FILE__" ∧ x ≠ "__LINE__") →
      ∃ scF, executeForNode (n + 2) env sc mc im fp ln nms (Expr.lit (.tuple [])) body sink
          = .ok scF mc im []
        ∧ ∀ x ∈ nms, dictLookup scF x = Option.none) := by
  have hlook : dictLookup (insFL sc fp ln) nm = Option.none := by
    rw [insFL, dictLookup_insert_other _ _ _ _ (Ne.symm h3),
      dictLookup_insert_other _ _ _ _ (Ne.symm h2)]
    exact hnm1
  have hFLkeys : ((insFL sc fp ln).map Prod.fst).Nodup := by
    exact dictInsert_keys_nodup _ _ _ (dictInsert_keys_nodup _ _ _ hkeys)
  refine ⟨?_, ⟨?_, ?_⟩, ?_⟩
  · simp only [executeForNode, executeForIter, evaluateExpression, evalExpr, pyIterate,
      pyDelAll, pyDel]
    rw [show dictInsert (dictInsert sc ("__FILE__") (.str fp)) ("__LINE__")
        (.int (Int.ofNat ln)) = insFL sc fp ln from rfl, hlook]
  · have hempty : pyRange a (b + 1) 1 = [] := by
      simp only [pyRange, pyRangeLen]
      have : (b + 1 - a + 1 - 1).toNat / (1 : Int).toNat = 0 := by
        simp
        omega
      rw [if_pos (by norm_num)]
      rw [this]
      simp
    simp only [executeDoNode, evaluateRangesExpression, evaluateExpression, evalExpr]
    rw [show dictInsert (dictInsert sc ("__FILE__") (.str fp)) ("__LINE__")
        (.int (Int.ofNat ln)) = insFL sc fp ln from rfl]
    simp [hempty]
  · intro k hkF hkL
    rw [insFL, dictLookup_insert_other _ _ _ _ (Ne.symm hkL),
      dictLookup_insert_other _ _ _ _ (Ne.symm hkF)]
  · intro nms hnd hbound
    have hb2 : ∀ x ∈ nms, (dictLookup (insFL sc fp ln) x).isSome := by
      intro x hx
      obtain ⟨hs, hxF, hxL⟩ := hbound x hx
      rw [insFL, dictLookup_insert_other _ _ _ _ (Ne.symm hxL),
        dictLookup_insert_other _ _ _ _ (Ne.symm hxF)]
      exact hs
    obtain ⟨sF, hF1, hF2, hF3⟩ := pyDelAll_removes nms (insFL sc fp ln) hnd hFLkeys hb2
    refine ⟨sF, ?_, hF2⟩
    simp only [executeForNode, executeForIter, evaluateExpression, evalExpr, pyIterate]
    rw [show dictInsert (dictInsert sc ("__FILE__") (.str fp)) ("__LINE__")
        (.int (Int.ofNat ln)) = insFL sc fp ln from rfl, hF1]

/-- C9 witness: the theorem applied at a concrete scope where Y is
unbound for the first conjunct and bound for the third. -/
theorem c9_empty_for_deletion_witness :
    executeForNode 2 envNoMarkers [("Z", .int 5)] [] [] ("f") 1 ["Y"]
      (Expr.lit (.tuple [])) [] .collect = .err (.hostError .keyError) :=
  (c9_empty_for_deletion 0 envNoMarkers [("Z", .int 5)] [] [] ("f") 1 ("Y") [] [] .collect
    ("I") 3 1 (by simp) rfl (by decide) (by decide) (by decide)).1

/-- The collect sink reproduces the output unchanged. -/
theorem flatMap_collect_emit (out : List String) :
    out.flatMap Sink.collect.emit = out := by
  induction out with
  | nil => rfl
  | cons l rest ih => simp [Sink.emit, ih]

/-- The null sink discards the output. -/
theorem flatMap_null_emit (out : List String) :
    out.flatMap Sink.null.emit = [] := by
  induction out with
  | nil => rfl
  | cons l rest ih => simp [Sink.emit, ih]

/-- The indenting sink over any parent factors through the indenting
sink over collect followed by the parent. -/
theorem flatMap_spaced_emit (s : String) (sink : Sink) (out : List String) :
    out.flatMap (Sink.spaced s sink).emit
      = (out.flatMap (Sink.spaced s Sink.collect).emit).flatMap sink.emit := by
  induction out with
  | nil => rfl
  | cons l rest ih =>
    simp only [List.flatMap_cons, List.flatMap_append, ih]
    simp [Sink.emit]

/-- The line list pass relates any sink to the collect sink by mapping
the emission over the output. -/
theorem executeLines_hom : ∀ (n : Nat) (sc : Scope) (lines : List String) (fp : String)
    (num : Nat) (sink : Sink),
    executeLines n sc lines fp num sink
      = (executeLines n sc lines fp num Sink.collect).mapOutput
          (fun out => out.flatMap sink.emit) := by
  intro n
  induction n with
  | zero => intro sc lines fp num sink; rfl
  | succ m ih =>
    intro sc lines fp num sink
    cases lines with
    | nil => simp [executeLines, OutRes.mapOutput]
    | cons l rest =>
      simp only [executeLines]
      cases hl : evaluateLine m sc l fp num with
      | err e => simp [OutRes.mapOutput]
      | ok sc1 out1 =>
        dsimp only
        rw [ih sc1 rest fp (num + 1) sink]
        cases hr : executeLines m sc1 rest fp (num + 1) Sink.collect with
        | err e => simp [OutRes.mapOutput]
        | ok sc2 out2 =>
          simp [OutRes.mapOutput, List.flatMap_append, flatMap_collect_emit, Sink.emit]

/-- Sequencing two sink-homomorphic computations and concatenating
their outputs is sink-homomorphic. -/
theorem homSeq (f : Sink → ExecRes) (g : Scope → Macros → List String → Sink → ExecRes)
    (hf : HomRes f) (hg : ∀ sc mc im, HomRes (g sc mc im)) :
    HomRes (fun sink =>
      match f sink with
      | .err e => ExecRes.err e
      | .ok sc1 mc1 im1 out1 =>
        match g sc1 mc1 im1 sink with
        | .err e => ExecRes.err e
        | .ok sc2 mc2 im2 out2 => ExecRes.ok sc2 mc2 im2 (out1 ++ out2)) := by
  intro sink
  dsimp only
  rw [hf sink]
  cases hc : f Sink.collect with
  | err e => rfl
  | ok sc1 mc1 im1 out1 =>
    dsimp only [ExecRes.mapOutput]
    rw [hg sc1 mc1 im1 sink]
    cases hr : g sc1 mc1 im1 Sink.collect with
    | err e => rfl
    | ok sc2 mc2 im2 out2 =>
      simp [ExecRes.mapOutput, homOut, List.flatMap_append]

/-- Every executor entry point is a homomorphism in the sink, and the
use executor, which runs the imported tree under the null sink,
produces no output lines at all.  This is the formal content of the
dummy print function of _execute_use_node. -/
theorem executorHom : ∀ n : Nat,
    (∀ env sc mc im tree, HomRes (executeTree n env sc mc im tree))
  ∧ (∀ env sc mc im nodes, HomRes (executeNodeList n env sc mc im nodes))
  ∧ (∀ env sc mc im node, HomRes (executeNode n env sc mc im node))
  ∧ (∀ env sc mc im fp ln ipath sc2 mc2 im2 out,
      executeUseNode n env sc mc im fp ln ipath = .ok sc2 mc2 im2 out → out = [])
  ∧ (∀ env sc mc im fp ln condE thenN elifN elseN,
      HomRes (executeIfNode n env sc mc im fp ln condE thenN elifN elseN))
  ∧ (∀ env sc mc im elifs elseN fp ln,
      HomRes (executeElifNodes n env sc mc im elifs elseN fp ln))
  ∧ (∀ env sc mc im fp ln idx rangesE body,
      HomRes (executeDoNode n env sc mc im fp ln idx rangesE body))
  ∧ (∀ env sc mc im idx values body, HomRes (executeDoIter n env sc mc im idx values body))
  ∧ (∀ env sc mc im fp ln names iterE body,
      HomRes (executeForNode n env sc mc im fp ln names iterE body))
  ∧ (∀ env sc mc im names elems body, HomRes (executeForIter n env sc mc im names elems body))
  ∧ (∀ env sc mc im fp ln call, HomRes (executeCallNode n env sc mc im fp ln call))
  ∧ (∀ env sc mc im callSecs macroSecs spaces,
      HomRes (executeCallSections n env sc mc im callSecs macroSecs spaces))
  ∧ (∀ env sc mc im argument fp ln mname pats,
      HomRes (executePatternListNode n env sc mc im argument fp ln mname pats)) := by
  intro n
  induction n with
  | zero =>
    refine ⟨?_, ?_, ?_, ?_, ?_, ?_, ?_, ?_, ?_, ?_, ?_, ?_, ?_⟩ <;> intros
    all_goals first
      | (intro sink; rfl)
      | rfl
      | (rename_i h; exact ExecRes.noConfusion h)
  | succ m ih =>
    obtain ⟨ihTree, ihList, ihNode, ihUse, ihIf, ihElif, ihDo, ihDoIter, ihFor,
      ihForIter, ihCall, ihSecs, ihPats⟩ := ih
    refine ⟨?_, ?_, ?_, ?_, ?_, ?_, ?_, ?_, ?_, ?_, ?_, ?_, ?_⟩
    · intro env sc mc im tree sink
      simp only [executeTree]
      rw [ihList env sc mc im tree.rootNodes sink]
      cases h : executeNodeList m env sc mc im tree.rootNodes Sink.collect with
      | err e => rfl
      | ok sc1 mc1 im1 out =>
        simp [ExecRes.mapOutput, homOut, List.flatMap_append, flatMap_collect_emit]
    · intro env sc mc im nodes
      cases nodes with
      | nil => intro sink; rfl
      | cons node rest =>
        have hstep : ∀ nd, HomRes (executeNode m env sc mc im nd) →
            HomRes (fun sink =>
              match executeNode m env sc mc im nd sink with
              | .err e => ExecRes.err e
              | .ok sc1 mc1 im1 out1 =>
                match executeNodeList m env sc1 mc1 im1 rest sink with
                | .err e => ExecRes.err e
                | .ok sc2 mc2 im2 out2 => ExecRes.ok sc2 mc2 im2 (out1 ++ out2)) :=
          fun nd hnd =>
            homSeq _ _ hnd (fun sc1 mc1 im1 => ihList env sc1 mc1 im1 rest)
        cases node
        case callSegment fp ln spaces name argument =>
          intro sink
          simp only [executeNodeList]
          cases hres : resolveCallSegment m mc fp ln spaces name argument rest with
          | err e => rfl
          | ok c rest2 =>
            dsimp only
            rw [ihCall env sc mc im fp ln c sink]
            cases hc : executeCallNode m env sc mc im fp ln c Sink.collect with
            | err e => rfl
            | ok sc1 mc1 im1 out1 =>
              dsimp only [ExecRes.mapOutput]
              rw [ihList env sc1 mc1 im1 rest2 sink]
              cases hr : executeNodeList m env sc1 mc1 im1 rest2 Sink.collect with
              | err e => rfl
              | ok sc2 mc2 im2 out2 =>
                simp [ExecRes.mapOutput, homOut, List.flatMap_append]
        all_goals exact hstep _ (ihNode env sc mc im _)
    · intro env sc mc im node
      cases node with
      | lineList fp ln lines =>
        intro sink
        simp only [executeNode]
        rw [executeLines_hom m sc lines fp ln sink]
        cases hl : executeLines m sc lines fp ln Sink.collect with
        | err e => rfl
        | ok sc1 out =>
          simp [OutRes.mapOutput, ExecRes.mapOutput, homOut, List.flatMap_append,
            flatMap_collect_emit]
      | useNode fp ln ipath =>
        intro sink
        show executeUseNode m env sc mc im fp ln ipath
            = (executeUseNode m env sc mc im fp ln ipath).mapOutput (homOut sink)
        cases hu : executeUseNode m env sc mc im fp ln ipath with
        | err e => rfl
        | ok sc1 mc1 im1 out =>
          have hout := ihUse env sc mc im fp ln ipath sc1 mc1 im1 out hu
          subst hout
          rfl
      | letNode fp ln name args ve =>
        intro sink
        simp only [executeNode]
        cases executeLetNode sc fp ln name args ve <;> rfl
      | delNode fp ln names =>
        intro sink
        simp only [executeNode]
        cases executeDelNode sc fp ln names <;> rfl
      | ifNode fp ln cond thenN elifN elseN =>
        intro sink
        exact ihIf env sc mc im fp ln cond thenN elifN elseN sink
      | doNode fp ln idx rangesE body =>
        intro sink
        exact ihDo env sc mc im fp ln idx rangesE body sink
      | forNode fp ln names iterE body =>
        intro sink
        exact ihFor env sc mc im fp ln names iterE body sink
      | macroDirective fp ln mdir =>
        intro sink
        simp only [executeNode]
        cases executeMacroDirective mc fp ln mdir <;> rfl
      | resolvedCall fp ln c =>
        intro sink
        exact ihCall env sc mc im fp ln c sink
      | callSegment fp ln spaces name argument =>
        intro sink
        rfl
    · intro env sc mc im fp ln ipath sc2 mc2 im2 out
      simp only [executeUseNode]
      cases hp : pairLookup env.resolvedPaths fp ipath with
      | none => intro h; exact ExecRes.noConfusion h
      | some rp =>
        dsimp only
        cases hcont : im.contains rp with
        | true =>
          intro h
          rw [if_pos rfl] at h
          injection h with h1 h2 h3 h4
          exact h4.symm
        | false =>
          rw [if_neg Bool.false_ne_true]
          cases ha : assocLookup env.files rp with
          | none => intro h; exact ExecRes.noConfusion h
          | some tree =>
            dsimp only
            rw [ihTree env sc mc (rp :: im) tree Sink.null]
            cases hc : executeTree m env sc mc (rp :: im) tree Sink.collect with
            | err e => intro h; exact ExecRes.noConfusion h
            | ok s1 m1 i1 o1 =>
              intro h
              simp only [ExecRes.mapOutput, homOut, flatMap_null_emit] at h
              injection h with h1 h2 h3 h4
              exact h4.symm
    · intro env sc mc im fp ln condE thenN elifN elseN sink
      simp only [executeIfNode]
      cases h : evaluateExpression sc condE fp ln with
      | err e => rfl
      | ok sc1 v =>
        dsimp only
        cases truthy v
        · exact ihElif env sc1 mc im elifN elseN fp ln sink
        · exact ihList env sc1 mc im thenN sink
    · intro env sc mc im elifs elseN fp ln
      cases elifs with
      | nil => intro sink; exact ihList env sc mc im elseN sink
      | cons el rest =>
        cases el with
        | mk condE thenN =>
          intro sink
          simp only [executeElifNodes]
          cases h : evaluateExpression sc condE fp ln with
          | err e => rfl
          | ok sc1 v =>
            dsimp only
            cases truthy v
            · exact ihElif env sc1 mc im rest elseN fp ln sink
            · exact ihList env sc1 mc im thenN sink
    · intro env sc mc im fp ln idx rangesE body sink
      simp only [executeDoNode]
      cases h : evaluateRangesExpression sc rangesE fp ln with
      | err e => rfl
      | ok sc1 values =>
        dsimp only
        cases values with
        | nil => rfl
        | cons v vs =>
          dsimp only
          rw [ihDoIter env sc1 mc im idx (v :: vs) body sink]
          cases hi : executeDoIter m env sc1 mc im idx (v :: vs) body Sink.collect with
          | err e => rfl
          | ok sc2 mc2 im2 out =>
            dsimp only [ExecRes.mapOutput]
            cases pyDel sc2 idx <;> rfl
    · intro env sc mc im idx values body
      cases values with
      | nil => intro sink; rfl
      | cons v vs =>
        exact homSeq
          (executeNodeList m env
            (dictInsert (dictInsert sc ("__LOOP_INDEX__") (.int v)) idx (.int v)) mc im body)
          (fun sc1 mc1 im1 => executeDoIter m env sc1 mc1 im1 idx vs body)
          (ihList env _ mc im body)
          (fun sc1 mc1 im1 => ihDoIter env sc1 mc1 im1 idx vs body)
    · intro env sc mc im fp ln names iterE body sink
      simp only [executeForNode]
      cases h : evaluateExpression sc iterE fp ln with
      | err e => rfl
      | ok sc1 v =>
        dsimp only
        cases hi : pyIterate v with
        | error e => rfl
        | ok elems =>
          dsimp only
          rw [ihForIter env sc1 mc im names elems body sink]
          cases hf : executeForIter m env sc1 mc im names elems body Sink.collect with
          | err e => rfl
          | ok sc2 mc2 im2 out =>
            dsimp only [ExecRes.mapOutput]
            cases pyDelAll sc2 names <;> rfl
    · intro env sc mc im names elems body
      cases elems with
      | nil => intro sink; rfl
      | cons v vs =>
        have key : ∀ sE : Except Err Scope, HomRes (fun sink =>
            match sE with
            | .error e => ExecRes.err e
            | .ok scope1 =>
              match executeNodeList m env scope1 mc im body sink with
              | .err e => ExecRes.err e
              | .ok sc1 mc1 im1 out1 =>
                match executeForIter m env sc1 mc1 im1 names vs body sink with
                | .err e => ExecRes.err e
                | .ok sc2 mc2 im2 out2 => ExecRes.ok sc2 mc2 im2 (out1 ++ out2)) := by
          intro sE
          cases sE with
          | error e => intro sink; rfl
          | ok scope1 =>
            exact homSeq (executeNodeList m env scope1 mc im body)
              (fun sc1 mc1 im1 => executeForIter m env sc1 mc1 im1 names vs body)
              (ihList env scope1 mc im body)
              (fun sc1 mc1 im1 => ihForIter env sc1 mc1 im1 names vs body)
        exact key _
    · intro env sc mc im fp ln call sink
      simp only [executeCallNode]
      cases hm : assocLookup mc call.name with
      | none => rfl
      | some mdef =>
        dsimp only
        rw [ihPats env sc mc im call.argument fp ln mdef.name mdef.patternNodes
            (Sink.spaced call.spacesBefore sink),
          ihPats env sc mc im call.argument fp ln mdef.name mdef.patternNodes
            (Sink.spaced call.spacesBefore Sink.collect)]
        cases hp : executePatternListNode m env sc mc im call.argument fp ln mdef.name
            mdef.patternNodes Sink.collect with
        | err e => rfl
        | ok sc1 mc1 im1 out1 =>
          dsimp only [ExecRes.mapOutput]
          cases hcon : macroIsConstruct mdef with
          | false =>
            simp only [Bool.false_eq_true, if_false, ExecRes.mapOutput, homOut]
            rw [flatMap_spaced_emit]
          | true =>
            simp only [if_true]
            rw [ihList env sc1 mc1 im1 call.capturedNodes sink]
            cases h2 : executeNodeList m env sc1 mc1 im1 call.capturedNodes Sink.collect with
            | err e => rfl
            | ok sc2 mc2 im2 out2 =>
              dsimp only [ExecRes.mapOutput]
              rw [ihSecs env sc2 mc2 im2 call.callSectionNodes mdef.sectionNodes
                  call.spacesBefore sink]
              cases h3 : executeCallSections m env sc2 mc2 im2 call.callSectionNodes
                  mdef.sectionNodes call.spacesBefore Sink.collect with
              | err e => rfl
              | ok sc3 mc3 im3 out3 =>
                dsimp only [ExecRes.mapOutput]
                rw [ihList env sc3 mc3 im3 mdef.finallyNodes
                    (Sink.spaced call.spacesBefore sink),
                  ihList env sc3 mc3 im3 mdef.finallyNodes
                    (Sink.spaced call.spacesBefore Sink.collect)]
                cases h4 : executeNodeList m env sc3 mc3 im3 mdef.finallyNodes
                    Sink.collect with
                | err e => rfl
                | ok sc4 mc4 im4 out4 =>
                  simp only [ExecRes.mapOutput, homOut, List.flatMap_append]
                  simp only [← flatMap_spaced_emit]
    · intro env sc mc im callSecs macroSecs spaces sink
      cases callSecs with
      | nil => rfl
      | cons cs rest =>
        simp only [executeCallSections]
        cases hd : dropToSection macroSecs cs.name with
        | none => rfl
        | some p =>
          cases p with
          | mk sec tail =>
            dsimp only
            rw [ihPats env sc mc im cs.argument cs.filePath cs.lineNumber sec.name
                sec.patternNodes (Sink.spaced spaces sink),
              ihPats env sc mc im cs.argument cs.filePath cs.lineNumber sec.name
                sec.patternNodes (Sink.spaced spaces Sink.collect)]
            cases hp : executePatternListNode m env sc mc im cs.argument cs.filePath
                cs.lineNumber sec.name sec.patternNodes Sink.collect with
            | err e => rfl
            | ok sc1 mc1 im1 out1 =>
              dsimp only [ExecRes.mapOutput]
              rw [ihList env sc1 mc1 im1 cs.capturedNodes sink]
              cases h2 : executeNodeList m env sc1 mc1 im1 cs.capturedNodes Sink.collect with
              | err e => rfl
              | ok sc2 mc2 im2 out2 =>
                dsimp only [ExecRes.mapOutput]
                rw [ihSecs env sc2 mc2 im2 rest (if sec.once then tail else sec :: tail)
                    spaces sink]
                cases h3 : executeCallSections m env sc2 mc2 im2 rest
                    (if sec.once then tail else sec :: tail) spaces Sink.collect with
                | err e => rfl
                | ok sc3 mc3 im3 out3 =>
                  simp only [ExecRes.mapOutput, homOut, List.flatMap_append]
                  simp only [← flatMap_spaced_emit]
    · intro env sc mc im argument fp ln mname pats
      cases pats with
      | nil => intro sink; rfl
      | cons p ps =>
        intro sink
        simp only [executePatternListNode]
        cases h : rgxMatch p.rgx argument with
        | none => exact ihPats env sc mc im argument fp ln mname ps sink
        | some caps =>
          exact ihList env (caps.foldl (fun s kv => dictInsert s kv.1 kv.2) sc) mc im
            p.matchNodes sink

/-- The indenting sink over collect maps the transformation over the
lines one to one. -/
theorem homOut_spaced_collect (S : String) (out : List String) :
    homOut (Sink.spaced S Sink.collect) out = out.map (spacedTransform S) := by
  induction out with
  | nil => rfl
  | cons l rest ih => simp [homOut, Sink.emit, homOut] at ih ⊢; exact ih

/-- Pattern list execution under the indenting sink over collect is
the collect run with the indentation transformation mapped over the
output lines. -/
theorem executePatternListNode_spaced (n : Nat) (env : Env) (sc : Scope) (mc : Macros)
    (im : List String) (argument fp : String) (ln : Nat) (mname : String)
    (pats : List FortielPatternData) (S : String) :
    executePatternListNode n env sc mc im argument fp ln mname pats
        (Sink.spaced S Sink.collect)
      = (executePatternListNode n env sc mc im argument fp ln mname pats
          Sink.collect).mapOutput (List.map (spacedTransform S)) := by
  rw [(executorHom n).2.2.2.2.2.2.2.2.2.2.2.2 env sc mc im argument fp ln mname pats
    (Sink.spaced S Sink.collect)]
  cases hx : executePatternListNode n env sc mc im argument fp ln mname pats Sink.collect with
  | err e => rfl
  | ok s1 m1 i1 o1 => simp [ExecRes.mapOutput, homOut_spaced_collect]

/-- C3: the use executor skips a resolved path that is already in
the imported set, leaving scope, macros and imported set unchanged
and producing no output; any successful use produces no output lines
at all (the imported tree runs under the dummy sink); and in the
concrete scenario the first use records the resolved path and keeps
the definitions of the used file while the second use of the same
file does nothing. -/
theorem c3_use_idempotent :
    (∀ (n : Nat) (env : Env) (sc : Scope) (mc : Macros) (im : List String)
      (fp : String) (ln : Nat) (ipath rp : String),
      pairLookup env.resolvedPaths fp ipath = some rp →
      im.contains rp = true →
      executeUseNode (n + 1) env sc mc im fp ln ipath = .ok sc mc im [])
  ∧ (∀ (n : Nat) (env : Env) (sc : Scope) (mc : Macros) (im : List String)
      (fp : String) (ln : Nat) (ipath : String) (sc2 : Scope) (mc2 : Macros)
      (im2 out : List String),
      executeUseNode n env sc mc im fp ln ipath = .ok sc2 mc2 im2 out → out = [])
  ∧ executeUseNode 24 envUse [] [] [] ("main.f90") 1 ("defs.fi")
      = .ok [("__FILE__", .str ("defs.fi")), ("__LINE__", .int 1), ("N", .int 3)] []
          ["/abs/defs.fi"] []
  ∧ executeUseNode 24 envUse
      [("__FILE__", .str ("defs.fi")), ("__LINE__", .int 1), ("N", .int 3)] []
      ["/abs/defs.fi"] ("main.f90") 2 ("defs.fi")
      = .ok [("__FILE__", .str ("defs.fi")), ("__LINE__", .int 1), ("N", .int 3)] []
          ["/abs/defs.fi"] [] := by
  refine ⟨?_, ?_, rfl, rfl⟩
  · intro n env sc mc im fp ln ipath rp h1 h2
    simp only [executeUseNode, h1, h2, if_true]
  · intro n env sc mc im fp ln ipath sc2 mc2 im2 out h
    exact (executorHom n).2.2.2.1 env sc mc im fp ln ipath sc2 mc2 im2 out h

/-- C3 witness: the skip clause applied to a scenario where the
resolved path is already imported. -/
theorem c3_use_idempotent_witness :
    executeUseNode 9 envUse [("A", .int 0)] [] ["/abs/defs.fi"] ("main.f90") 3 ("defs.fi")
      = .ok [("A", .int 0)] [] ["/abs/defs.fi"] [] :=
  c3_use_idempotent.1 8 envUse [("A", .int 0)] [] ["/abs/defs.fi"] ("main.f90") 3
    ("defs.fi") ("/abs/defs.fi") rfl rfl

/-- C8 amended: the indenting sink built from the call segment leading
spaces S transforms every line of the column-0 run uniformly: a line
whose whitespace-stripped text starts with a hash character — a line
marker, but equally an ordinary body line starting with a hash — is
emitted unchanged, and every other line is S followed by the column-0
line.  For a non-construct macro the whole call output is the pattern
body collect run with that per-line transformation. -/
theorem c8_amended :
    (∀ (n : Nat) (env : Env) (sc : Scope) (mc : Macros) (im : List String)
      (argument fp : String) (ln : Nat) (mname : String)
      (pats : List FortielPatternData) (S : String),
      executePatternListNode n env sc mc im argument fp ln mname pats
          (Sink.spaced S Sink.collect)
        = (executePatternListNode n env sc mc im argument fp ln mname pats
            Sink.collect).mapOutput (List.map (spacedTransform S)))
  ∧ (∀ (n : Nat) (env : Env) (sc : Scope) (mc : Macros) (im : List String)
      (fp : String) (ln : Nat) (call : FortielCallData) (mdef : FortielMacroData),
      assocLookup mc call.name = some mdef →
      macroIsConstruct mdef = false →
      executeCallNode (n + 1) env sc mc im fp ln call Sink.collect
        = (executePatternListNode n env sc mc im call.argument fp ln mdef.name
            mdef.patternNodes Sink.collect).mapOutput
            (List.map (spacedTransform call.spacesBefore)))
  ∧ (∀ (S l : String), startsWithHashAfterStrip l = false → spacedTransform S l = S ++ l)
  ∧ (∀ (S l : String), startsWithHashAfterStrip l = true → spacedTransform S l = l) := by
  refine ⟨?_, ?_, ?_, ?_⟩
  · intro n env sc mc im argument fp ln mname pats S
    exact executePatternListNode_spaced n env sc mc im argument fp ln mname pats S
  · intro n env sc mc im fp ln call mdef hm hcon
    simp only [executeCallNode, hm]
    rw [executePatternListNode_spaced n env sc mc im call.argument fp ln mdef.name
      mdef.patternNodes call.spacesBefore]
    cases hp : executePatternListNode n env sc mc im call.argument fp ln mdef.name
        mdef.patternNodes Sink.collect with
    | err e => rfl
    | ok s1 m1 i1 o1 =>
      dsimp only [ExecRes.mapOutput]
      rw [hcon, if_neg Bool.false_ne_true]
  · intro S l h
    simp [spacedTransform, h]
  · intro S l h
    simp [spacedTransform, h]

/-- C8 amended witness: the non-construct clause applied to the
concrete sq macro called with two leading spaces; the body line
starting with a hash stays at column 0, the other body line is
indented. -/
theorem c8_amended_witness :
    executeCallNode 20 envNoMarkers []
      [(("sq"), FortielMacroData.mk ("sq")
        [FortielPatternData.mk ("f") 1 .matchAny
          [FortielNode.lineList ("f") 2 ["#foo", "y = 1"]]] [] [])] [] ("f") 5
      (FortielCallData.mk ("  ") ("sq") ("") [] []) Sink.collect
      = (executePatternListNode 19 envNoMarkers []
          [(("sq"), FortielMacroData.mk ("sq")
            [FortielPatternData.mk ("f") 1 .matchAny
              [FortielNode.lineList ("f") 2 ["#foo", "y = 1"]]] [] [])] [] ("") ("f") 5
          ("sq") [FortielPatternData.mk ("f") 1 .matchAny
            [FortielNode.lineList ("f") 2 ["#foo", "y = 1"]]] Sink.collect).mapOutput
          (List.map (spacedTransform ("  "))) :=
  c8_amended.2.1 19 envNoMarkers []
    [(("sq"), FortielMacroData.mk ("sq")
      [FortielPatternData.mk ("f") 1 .matchAny
        [FortielNode.lineList ("f") 2 ["#foo", "y = 1"]]] [] [])] [] ("f") 5
    (FortielCallData.mk ("  ") ("sq") ("") [] [])
    (FortielMacroData.mk ("sq")
      [FortielPatternData.mk ("f") 1 .matchAny
        [FortielNode.lineList ("f") 2 ["#foo", "y = 1"]]] [] [])
    rfl rfl

/-- One run of the c4 body from the four-entry loop scope: the file
and line builtins are refreshed by the condition evaluation, the index
name and the loop counter compare equal, and the then branch emits its
single line. -/
theorem c4_body_run (j : Nat) (a1 a2 : Value) (v : Int) (fp : String) (ln : Nat) :
    executeNodeList (j + 13) envNoMarkers
      [("__FILE__", a1), ("__LINE__", a2), ("__LOOP_INDEX__", Value.int v), ("I", Value.int v)]
      [] [] (c4Body fp ln) Sink.collect
      = .ok [("__FILE__", Value.str fp), ("__LINE__", Value.int (Int.ofNat ln)),
          ("__LOOP_INDEX__", Value.int v), ("I", Value.int v)] [] [] ["bound"] := by
  have heval : evaluateExpression
      [("__FILE__", a1), ("__LINE__", a2), ("__LOOP_INDEX__", Value.int v), ("I", Value.int v)]
      (Expr.eqE (.var ("I")) (.var ("__LOOP_INDEX__"))) fp ln
      = .ok [("__FILE__", Value.str fp), ("__LINE__", Value.int (Int.ofNat ln)),
          ("__LOOP_INDEX__", Value.int v), ("I", Value.int v)] (Value.bool (v == v)) := rfl
  rw [beq_self_eq_true] at heval
  have h5 : (("bound" : String)).data.length = 5 := rfl
  have hline : evaluateLine (j + 7)
      [("__FILE__", Value.str fp), ("__LINE__", Value.int (Int.ofNat ln)),
        ("__LOOP_INDEX__", Value.int v), ("I", Value.int v)] ("bound") fp ln
      = .ok [("__FILE__", Value.str fp), ("__LINE__", Value.int (Int.ofNat ln)),
          ("__LOOP_INDEX__", Value.int v), ("I", Value.int v)] ("bound") := by
    simp only [evaluateLine]
    rw [evaluateLineChars_id (("bound" : String)).data (j + 7) _ fp ln (by omega) rfl]
  simp only [c4Body, executeNodeList, executeNode, executeIfNode, executeLines,
    heval, hline, truthy, if_true, Sink.emit, lineListMarkerLines, envNoMarkers,
    List.flatMap_nil, List.nil_append, List.append_nil]

/-- The iteration of the do executor over the c4 body: each iteration
rebinds the loop counter and the index name to the current value and
emits one line, so the final scope carries the last value and the
output one line per value. -/
theorem c4_iter (fp : String) (ln : Nat) :
    ∀ (n : Nat) (vs : List Int) (v : Int) (sc : Scope) (a1 a2 : Value),
    vs.length + 15 ≤ n →
    dictInsert (dictInsert sc ("__LOOP_INDEX__") (Value.int v)) ("I") (Value.int v)
      = [("__FILE__", a1), ("__LINE__", a2), ("__LOOP_INDEX__", Value.int v),
          ("I", Value.int v)] →
    executeDoIter n envNoMarkers sc [] [] ("I") (v :: vs) (c4Body fp ln) Sink.collect
      = .ok [("__FILE__", Value.str fp), ("__LINE__", Value.int (Int.ofNat ln)),
          ("__LOOP_INDEX__", Value.int (vs.getLastD v)), ("I", Value.int (vs.getLastD v))]
          [] [] ((v :: vs).map (fun _ => ("bound" : String))) := by
  intro n
  induction n with
  | zero => intro vs v sc a1 a2 hn heq; omega
  | succ m ih =>
    intro vs v sc a1 a2 hn heq
    obtain ⟨k, rfl⟩ : ∃ k, m = k + 13 := ⟨m - 13, by omega⟩
    rw [executeDoIter]
    rw [heq]
    rw [c4_body_run k a1 a2 v fp ln]
    dsimp only
    cases vs with
    | nil =>
      rw [executeDoIter]
      simp [List.getLastD]
    | cons w ws =>
      rw [ih ws w
        [("__FILE__", Value.str fp), ("__LINE__", Value.int (Int.ofNat ln)),
          ("__LOOP_INDEX__", Value.int v), ("I", Value.int v)]
        (Value.str fp) (Value.int (Int.ofNat ln))
        (by simp only [List.length_cons] at hn ⊢; omega) rfl]
      dsimp only
      rw [List.getLastD_cons]
      rfl

/-- C4 amended: executing a do node over the two-integer ranges tuple
(start, stop) with start at most stop, from a scope holding only the
file and line builtins, runs the body once per value of the inclusive
range; inside each iteration the loop counter key __LOOP_INDEX__ (not
__INDEX__) and the index name are both bound to the current value, as
the body test observes; on exit the index name is removed while
__LOOP_INDEX__ is written back to its prior value, which was the
absence of a binding, so it remains bound to Python None. -/
theorem c4_amended (n : Nat) (a1 a2 : Value) (a b : Int) (fp : String) (ln : Nat)
    (hab : a ≤ b) (hn : (b + 1 - a).toNat + 16 ≤ n) :
    executeDoNode n envNoMarkers [("__FILE__", a1), ("__LINE__", a2)] [] [] fp ln ("I")
      (Expr.lit (.tuple [.int a, .int b])) (c4Body fp ln) Sink.collect
    = .ok [("__FILE__", Value.str fp), ("__LINE__", Value.int (Int.ofNat ln)),
        ("__LOOP_INDEX__", Value.none)] [] []
        ((inclusiveRange a b).map (fun _ => ("bound" : String))) := by
  cases n with
  | zero => omega
  | succ m =>
    have hranges : evaluateRangesExpression [("__FILE__", a1), ("__LINE__", a2)]
        (Expr.lit (.tuple [.int a, .int b])) fp ln
        = .ok [("__FILE__", Value.str fp), ("__LINE__", Value.int (Int.ofNat ln))]
            (pyRange a (b + 1) 1) := rfl
    rcases hsplit : inclusiveRange a b with _ | ⟨v, vs⟩
    · exfalso
      have hlen := congrArg List.length hsplit
      simp only [inclusiveRange, List.length_map, List.length_range,
        List.length_nil] at hlen
      omega
    · have hlen := congrArg List.length hsplit
      simp only [inclusiveRange, List.length_map, List.length_range,
        List.length_cons] at hlen
      rw [executeDoNode, hranges]
      dsimp only
      rw [pyRange_two, hsplit]
      dsimp only
      rw [c4_iter fp ln m vs v
        [("__FILE__", Value.str fp), ("__LINE__", Value.int (Int.ofNat ln))]
        (Value.str fp) (Value.int (Int.ofNat ln)) (by omega) rfl]
      dsimp only
      rw [← hsplit]
      rfl

/-- C4 amended witness: the theorem applied to the range (1, 2) from a
scope whose file and line builtins hold unrelated prior values. -/
theorem c4_amended_witness :
    executeDoNode 30 envNoMarkers [("__FILE__", Value.str ("g")), ("__LINE__", Value.int 7)]
      [] [] ("f") 3 ("I") (Expr.lit (.tuple [.int 1, .int 2])) (c4Body ("f") 3) Sink.collect
    = .ok [("__FILE__", Value.str ("f")), ("__LINE__", Value.int 3),
        ("__LOOP_INDEX__", Value.none)] [] [] ["bound", "bound"] := by
  rw [c4_amended 30 (Value.str ("g")) (Value.int 7) 1 2 ("f") 3 (by decide) (by decide)]
  rfl

end Fortiel
